import Mathlib

/-!
# Shallow embedding of the chat application core (src/chat app/app.py)

This file embeds the in-memory state machine of the Flask-SocketIO chat
application: the `active_rooms` store, the nine SocketIO event handlers that
read and mutate it, and the outbound events they emit.  Python dicts are
modelled as insertion-ordered association lists, Python lists as Lean lists,
and each handler as a pure function `Store → args → Store × List Out`, where
an `Out` records the event together with its addressing (unicast to the
request's connection, or a room broadcast whose recipient set is resolved at
emit time from the room's current members, mirroring SocketIO room delivery;
`join_room`/`leave_room` transport calls keep SocketIO rooms in lockstep with
`active_rooms[rid]['users']`, so a room broadcast reaches exactly the keys of
that dict).  Python's `str.strip`/`str.upper`/`str.lower` are modelled by
`strTrim`/`strUpper`/`strLower` on the underlying character list (ASCII case
mapping, which is what the identifiers involved exercise).  `datetime.now()`
is modelled by a timestamp string passed as an argument to each operation
(the source reads the clock with minute granularity; the reads inside one
handler are modelled as one sampled value).  `uuid`-based room-id generation
is modelled by passing the generated id as an argument; the regeneration loop
in `handle_create_room` guarantees the id is not already a key of the store,
which theorems record as a freshness hypothesis (`wfOp`).
-/

namespace ChatApp

/-- Connection identifiers (`request.sid`): opaque, assigned by the transport. -/
abbrev Sid := Nat

/-- Model of Python `str.lower` (ASCII case mapping). -/
def strLower (s : String) : String := String.mk (s.data.map Char.toLower)

/-- Model of Python `str.upper` (ASCII case mapping). -/
def strUpper (s : String) : String := String.mk (s.data.map Char.toUpper)

/-- Model of Python `str.strip`: drop leading and trailing whitespace. -/
def strTrim (s : String) : String :=
  String.mk (((s.data.dropWhile Char.isWhitespace).reverse.dropWhile Char.isWhitespace).reverse)

/-- `room_id.strip().upper()`, the normalization every room-scoped handler applies. -/
def normRoomId (s : String) : String := strUpper (strTrim s)

/-! ## Insertion-ordered dictionaries (Python `dict`) as association lists -/

/-- Python `d.get(k)` / `d[k]` lookup. -/
def alookup {α β : Type} [DecidableEq α] : List (α × β) → α → Option β
  | [], _ => none
  | (k, v) :: t, k' => if k = k' then some v else alookup t k'

/-- Python `d[k] = v`: update in place if the key is present, else append
(insertion order is preserved, as for Python dicts). -/
def aset {α β : Type} [DecidableEq α] : List (α × β) → α → β → List (α × β)
  | [], k, v => [(k, v)]
  | (k', v') :: t, k, v => if k' = k then (k, v) :: t else (k', v') :: aset t k v

/-- Python `del d[k]`: remove the entry with key `k`. -/
def adel {α β : Type} [DecidableEq α] : List (α × β) → α → List (α × β)
  | [], _ => []
  | (k', v') :: t, k => if k' = k then t else (k', v') :: adel t k

/-- Python `d.keys()` in insertion order. -/
def akeys {α β : Type} (l : List (α × β)) : List α := l.map Prod.fst

/-- Python `d.values()` in insertion order. -/
def avalues {α β : Type} (l : List (α × β)) : List β := l.map Prod.snd

/-! ## Data model -/

/-- The `type` field of a message dict: `'text'`, `'voice'` or `'system'`. -/
inductive MsgType
  | text
  | voice
  | system
deriving DecidableEq, Repr

/-- A message dict as appended to `active_rooms[rid]['messages']` and broadcast
as `new_message`.  The source uses dicts with per-kind fields; here one record
carries them all, with `message`/`audio_data`/`duration`/`sender_id` left at
their neutral value for kinds that lack the field. -/
structure Message where
  username : String
  message : String
  audio_data : String
  duration : Nat
  timestamp : String
  type : MsgType
  sender_id : Option Sid
deriving DecidableEq, Repr

/-- The dict built by `add_system_message` and the inline system `new_message`
payloads: `{'username': 'System', 'message': text, 'timestamp': ts, 'type': 'system'}`. -/
def mkSystemMessage (text ts : String) : Message :=
  { username := "System", message := text, audio_data := "", duration := 0,
    timestamp := ts, type := .system, sender_id := none }

/-- `active_rooms[rid]['video_call']`. -/
structure VideoCall where
  active : Bool
  participants : List Sid
deriving DecidableEq, Repr

/-- One value of the `active_rooms` store:
`{'users': {sid: username}, 'messages': [...], 'video_call': {...}}`. -/
structure Room where
  users : List (Sid × String)
  messages : List Message
  video_call : VideoCall
deriving DecidableEq, Repr

/-- The room value installed by `handle_create_room` and by implicit creation
in `handle_join_room`. -/
def emptyRoom : Room :=
  { users := [], messages := [], video_call := { active := false, participants := [] } }

/-- The global `active_rooms` dict. -/
abbrev Store := List (String × Room)

/-! ## Outbound events -/

/-- The outbound SocketIO events the handlers emit (§6 of the design). -/
inductive Event
  | room_created (room_id : String)
  | error (message : String)
  | room_joined (room_id username : String) (messages : List Message)
      (users : List String) (video_call_active : Bool)
  | user_joined (username timestamp : String) (users : List String)
  | user_left (username timestamp : String) (users : List String)
  | left_room (room_id : String)
  | new_message (m : Message)
  | video_call_started (username : String) (peer_id : Sid) (timestamp : String)
  | existing_participants (participants : List (Sid × String))
  | user_joined_call (peer_id : Sid) (username : String)
  | user_left_call (peer_id : Sid) (username : String)
  | video_call_ended
deriving DecidableEq, Repr

/-- Addressing of an emitted event: plain `emit(...)` goes to the requesting
connection only; `emit(..., room=rid)` is delivered to the members of `rid`
at emit time (minus `skip_sid` when given), recorded here as the resolved
recipient list. -/
inductive Addr
  | conn (sid : Sid)
  | broadcast (room_id : String) (recipients : List Sid)
deriving DecidableEq, Repr

/-- One emitted event with its addressing. -/
abbrev Out := Addr × Event

/-- Recipients of `emit(..., room=rid)`: the keys of the room's `users` dict
at emit time (SocketIO rooms track them in lockstep). -/
def roomRecipients (st : Store) (rid : String) : List Sid :=
  match alookup st rid with
  | some r => akeys r.users
  | none => []

/-- Recipients of `emit(..., room=rid, skip_sid=sid)`. -/
def roomRecipientsSkip (st : Store) (rid : String) (skip : Sid) : List Sid :=
  (roomRecipients st rid).filter (fun s => s ≠ skip)

/-- Update the room stored under `rid`, if present.  Mirrors the in-place
mutations `active_rooms[rid][...] = ...` of the source. -/
def updRoom (st : Store) (rid : String) (f : Room → Room) : Store :=
  match alookup st rid with
  | some r => aset st rid (f r)
  | none => st

/-- `add_system_message(room_id, message)` (app.py:28-36). -/
def add_system_message (st : Store) (rid text ts : String) : Store :=
  updRoom st rid (fun r => { r with messages := r.messages ++ [mkSystemMessage text ts] })

/-! ## Handlers -/

/-- `handle_create_room` (app.py:94-120).  The source draws the id from
`generate_room_id()` and regenerates on collision until it is not a key of
`active_rooms`; `room_id` here stands for the loop's final value, whose
collision-freeness theorems record as the hypothesis `wfOp`.  The creator is
not added to the room: `users` starts empty. -/
def handle_create_room (st : Store) (sid : Sid) (room_id : String) : Store × List Out :=
  (aset st room_id emptyRoom, [(.conn sid, .room_created room_id)])

/-- `handle_join_room` (app.py:122-179). -/
def handle_join_room (st : Store) (sid : Sid) (room_id_arg username_arg ts : String) :
    Store × List Out :=
  let room_id := normRoomId room_id_arg
  let username := strTrim username_arg
  if room_id = "" then (st, [(.conn sid, .error "Room ID is required")])
  else if username = "" then (st, [(.conn sid, .error "Username is required")])
  else
    -- create room if it doesn't exist (implicit creation, app.py:137-146)
    let st1 := if (alookup st room_id).isNone then aset st room_id emptyRoom else st
    -- the room is present in st1 by construction, so the default is never used
    let r := (alookup st1 room_id).getD emptyRoom
    let existing_usernames := (avalues r.users).map strLower
    if strLower username ∈ existing_usernames then
      (st1, [(.conn sid, .error "Username already taken in this room")])
    else
      let users1 := aset r.users sid username
      let st2 := updRoom st1 room_id (fun r0 => { r0 with users := aset r0.users sid username })
      let out1 : Out := (.conn sid,
        .room_joined room_id username r.messages (avalues users1) r.video_call.active)
      let st3 := add_system_message st2 room_id (username ++ " has joined the room") ts
      let out2 : Out := (.broadcast room_id (roomRecipientsSkip st3 room_id sid),
        .user_joined username ts (avalues users1))
      (st3, [out1, out2])

/-- `handle_leave_room` (app.py:181-220).  When the connection is not a member
of the (existing) room, the whole body is skipped: no event, no state change. -/
def handle_leave_room (st : Store) (sid : Sid) (room_id_arg ts : String) : Store × List Out :=
  let room_id := normRoomId room_id_arg
  match alookup st room_id with
  | none => (st, [])
  | some r =>
    match alookup r.users sid with
    | none => (st, [])
    | some username =>
      -- remove from video call if present (app.py:191-196); the emit happens
      -- before the user is removed, so the leaver is still a recipient
      let inCall := sid ∈ r.video_call.participants
      let st1 := if inCall then
          updRoom st room_id (fun r0 =>
            { r0 with video_call :=
              { r0.video_call with participants := r0.video_call.participants.erase sid } })
        else st
      let outs1 : List Out := if inCall then
          [(.broadcast room_id (roomRecipients st1 room_id), .user_left_call sid username)]
        else []
      -- remove user from room (app.py:199-200)
      let st2 := updRoom st1 room_id (fun r0 => { r0 with users := adel r0.users sid })
      let st3 := add_system_message st2 room_id (username ++ " has left the room") ts
      let r3 := (alookup st3 room_id).getD emptyRoom
      let out2 : Out := (.broadcast room_id (roomRecipients st3 room_id),
        .user_left username ts (avalues r3.users))
      -- clean up empty rooms (app.py:211-213)
      let st4 := if r3.users.length = 0 then adel st3 room_id else st3
      (st4, outs1 ++ [out2, (.conn sid, .left_room room_id)])

/-- The body of the per-room loop of `handle_disconnect` (app.py:62-90). -/
def disconnectRoom (sid : Sid) (ts : String) (st : Store) (room_id : String) :
    Store × List Out :=
  match alookup st room_id with
  | none => (st, [])
  | some r =>
    let username := (alookup r.users sid).getD "Unknown User"
    let inCall := sid ∈ r.video_call.participants
    let st1 := if inCall then
        updRoom st room_id (fun r0 =>
          { r0 with video_call :=
            { r0.video_call with participants := r0.video_call.participants.erase sid } })
      else st
    let outs1 : List Out := if inCall then
        [(.broadcast room_id (roomRecipients st1 room_id), .user_left_call sid username)]
      else []
    -- remove user from room, guarded (app.py:76-77)
    let st2 := updRoom st1 room_id (fun r0 =>
      if (alookup r0.users sid).isSome then { r0 with users := adel r0.users sid } else r0)
    let st3 := add_system_message st2 room_id (username ++ " has left the room") ts
    let r3 := (alookup st3 room_id).getD emptyRoom
    let out2 : Out := (.broadcast room_id (roomRecipients st3 room_id),
      .user_left username ts (avalues r3.users))
    let st4 := if r3.users.length = 0 then adel st3 room_id else st3
    (st4, outs1 ++ [out2])

/-- `handle_disconnect` (app.py:57-92).  `rooms()` lists the SocketIO rooms of
the disconnecting connection (minus its personal room); by the lockstep noted
in the header these are the store's rooms whose `users` contain `sid`. -/
def handle_disconnect (st : Store) (sid : Sid) (ts : String) : Store × List Out :=
  let user_rooms := (st.filter (fun p => (alookup p.2.users sid).isSome)).map Prod.fst
  user_rooms.foldl
    (fun acc rid =>
      let next := disconnectRoom sid ts acc.1 rid
      (next.1, acc.2 ++ next.2))
    (st, ([] : List Out))

/-- `handle_send_message` (app.py:222-257).  The emptiness check precedes the
membership check, so blank text returns silently whatever the membership. -/
def handle_send_message (st : Store) (sid : Sid) (room_id_arg message_arg ts : String) :
    Store × List Out :=
  let room_id := normRoomId room_id_arg
  let message_text := strTrim message_arg
  if message_text = "" then (st, [])
  else
    match alookup st room_id with
    | none => (st, [(.conn sid, .error "You are not in this room")])
    | some r =>
      match alookup r.users sid with
      | none => (st, [(.conn sid, .error "You are not in this room")])
      | some username =>
        let message_obj : Message :=
          { username := username, message := message_text, audio_data := "", duration := 0,
            timestamp := ts, type := .text, sender_id := some sid }
        let st1 := updRoom st room_id (fun r0 =>
          { r0 with messages := r0.messages ++ [message_obj] })
        (st1, [(.broadcast room_id (roomRecipients st1 room_id), .new_message message_obj)])

/-- `handle_send_voice_note` (app.py:259-303).  The empty-payload check
precedes the membership check, which precedes the 5 MiB size check. -/
def handle_send_voice_note (st : Store) (sid : Sid) (room_id_arg audio_data : String)
    (duration : Nat) (ts : String) : Store × List Out :=
  let room_id := normRoomId room_id_arg
  if audio_data = "" then (st, [(.conn sid, .error "No audio data received")])
  else
    match alookup st room_id with
    | none => (st, [(.conn sid, .error "You are not in this room")])
    | some r =>
      match alookup r.users sid with
      | none => (st, [(.conn sid, .error "You are not in this room")])
      | some username =>
        if audio_data.data.length > 5 * 1024 * 1024 then
          (st, [(.conn sid, .error "Voice note too large (max 5MB)")])
        else
          let message_obj : Message :=
            { username := username, message := "", audio_data := audio_data,
              duration := duration, timestamp := ts, type := .voice, sender_id := some sid }
          let st1 := updRoom st room_id (fun r0 =>
            { r0 with messages := r0.messages ++ [message_obj] })
          (st1, [(.broadcast room_id (roomRecipients st1 room_id), .new_message message_obj)])

/-- `handle_start_video_call` (app.py:307-335).  Sets `active` and appends the
caller to `participants` unconditionally (no duplicate guard). -/
def handle_start_video_call (st : Store) (sid : Sid) (room_id_arg ts : String) :
    Store × List Out :=
  let room_id := normRoomId room_id_arg
  match alookup st room_id with
  | none => (st, [(.conn sid, .error "You are not in this room")])
  | some r =>
    match alookup r.users sid with
    | none => (st, [(.conn sid, .error "You are not in this room")])
    | some username =>
      let st1 := updRoom st room_id (fun r0 =>
        { r0 with video_call :=
          { active := true, participants := r0.video_call.participants ++ [sid] } })
      let st2 := add_system_message st1 room_id (username ++ " started a video call") ts
      (st2, [(.broadcast room_id (roomRecipients st2 room_id),
        .video_call_started username sid ts)])

/-- `handle_join_video_call` (app.py:337-383).  Adds the caller to
`participants` if absent, but never touches `active`. -/
def handle_join_video_call (st : Store) (sid : Sid) (room_id_arg ts : String) :
    Store × List Out :=
  let room_id := normRoomId room_id_arg
  match alookup st room_id with
  | none => (st, [(.conn sid, .error "You are not in this room")])
  | some r =>
    match alookup r.users sid with
    | none => (st, [(.conn sid, .error "You are not in this room")])
    | some username =>
      let participants1 :=
        if sid ∈ r.video_call.participants then r.video_call.participants
        else r.video_call.participants ++ [sid]
      let st1 := updRoom st room_id (fun r0 =>
        { r0 with video_call := { r0.video_call with participants :=
          if sid ∈ r0.video_call.participants then r0.video_call.participants
          else r0.video_call.participants ++ [sid] } })
      let other_participants := participants1.filterMap (fun pid =>
        if pid = sid then none
        else match alookup r.users pid with
          | some u => some (pid, u)
          | none => none)
      let sysm := mkSystemMessage (username ++ " joined the video call") ts
      let st2 := add_system_message st1 room_id (username ++ " joined the video call") ts
      (st2, [(.conn sid, .existing_participants other_participants),
             (.broadcast room_id (roomRecipientsSkip st1 room_id sid),
               .user_joined_call sid username),
             (.broadcast room_id (roomRecipients st2 room_id), .new_message sysm)])

/-- `handle_leave_video_call` (app.py:385-424).  A non-member silently returns;
a member is erased from `participants` (if present), the call is deactivated
when `participants` is empty afterwards, and the participant-left events and
system messages are emitted unconditionally. -/
def handle_leave_video_call (st : Store) (sid : Sid) (room_id_arg ts : String) :
    Store × List Out :=
  let room_id := normRoomId room_id_arg
  match alookup st room_id with
  | none => (st, [])
  | some r =>
    match alookup r.users sid with
    | none => (st, [])
    | some username =>
      -- `if sid in participants: participants.remove(sid)` = erase the first occurrence
      let participants1 := r.video_call.participants.erase sid
      let st1 := updRoom st room_id (fun r0 =>
        { r0 with video_call :=
          { r0.video_call with participants := r0.video_call.participants.erase sid } })
      let emptyNow := participants1.length = 0
      let st2 := if emptyNow then
          add_system_message
            (updRoom st1 room_id (fun r0 =>
              { r0 with video_call := { r0.video_call with active := false } }))
            room_id "Video call ended" ts
        else st1
      let outs2 : List Out := if emptyNow then
          [(.broadcast room_id (roomRecipients st2 room_id), .video_call_ended)]
        else []
      let out3 : Out := (.broadcast room_id (roomRecipients st2 room_id),
        .user_left_call sid username)
      let sysm := mkSystemMessage (username ++ " left the video call") ts
      let st3 := add_system_message st2 room_id (username ++ " left the video call") ts
      (st3, outs2 ++ [out3,
        (.broadcast room_id (roomRecipients st3 room_id), .new_message sysm)])

/-! ## Operations, traces and reachability -/

/-- One inbound event (§6), with the nondeterministic inputs (generated room
id, timestamp) made explicit. -/
inductive Op
  | create_room (sid : Sid) (room_id : String)
  | join_room (sid : Sid) (room_id username ts : String)
  | leave_room (sid : Sid) (room_id ts : String)
  | disconnect (sid : Sid) (ts : String)
  | send_message (sid : Sid) (room_id message ts : String)
  | send_voice_note (sid : Sid) (room_id audio_data : String) (duration : Nat) (ts : String)
  | start_video_call (sid : Sid) (room_id ts : String)
  | join_video_call (sid : Sid) (room_id ts : String)
  | leave_video_call (sid : Sid) (room_id ts : String)
deriving DecidableEq, Repr

/-- Dispatch an inbound event to its handler. -/
def step (st : Store) : Op → Store × List Out
  | .create_room sid rid => handle_create_room st sid rid
  | .join_room sid rid u ts => handle_join_room st sid rid u ts
  | .leave_room sid rid ts => handle_leave_room st sid rid ts
  | .disconnect sid ts => handle_disconnect st sid ts
  | .send_message sid rid m ts => handle_send_message st sid rid m ts
  | .send_voice_note sid rid ad dur ts => handle_send_voice_note st sid rid ad dur ts
  | .start_video_call sid rid ts => handle_start_video_call st sid rid ts
  | .join_video_call sid rid ts => handle_join_video_call st sid rid ts
  | .leave_video_call sid rid ts => handle_leave_video_call st sid rid ts

/-- The store after an operation. -/
def stepSt (st : Store) (op : Op) : Store := (step st op).1

/-- Well-formedness of an operation's modelled nondeterminism: the room id a
`create_room` installs is the regeneration loop's result, hence not already a
key of the store.  All other operations carry no such obligation. -/
def wfOp (st : Store) : Op → Bool
  | .create_room _ rid => (alookup st rid).isNone
  | _ => true

/-- Stores reachable from the empty initial store by well-formed operations. -/
inductive Reachable : Store → Prop
  | init : Reachable []
  | next {st : Store} {op : Op} : Reachable st → wfOp st op = true → Reachable (stepSt st op)

/-- Run a trace of operations. -/
def run (st : Store) : List Op → Store
  | [] => st
  | op :: t => run (stepSt st op) t

/-- Run a trace of operations, collecting every emitted event. -/
def runOuts (st : Store) : List Op → Store × List Out
  | [] => (st, [])
  | op :: t =>
    let s := step st op
    let rest := runOuts s.1 t
    (rest.1, s.2 ++ rest.2)

/-- The message history of a room (empty when the room is absent). -/
def histOf (st : Store) (rid : String) : List Message :=
  ((alookup st rid).map Room.messages).getD []

/-! ## Derived notions the claims quantify over -/

/-- `app.config['MAX_CONTENT_LENGTH']` (app.py:10): the transport-level
maximum frame size, 10 MiB. -/
def MAX_CONTENT_LENGTH : Nat := 10 * 1024 * 1024

/-- The per-message voice-note ceiling checked in `handle_send_voice_note`
(app.py:277): 5 MiB. -/
def VOICE_NOTE_LIMIT : Nat := 5 * 1024 * 1024

/-- The video-call invariant of §3: `active == (len(participants) > 0)`. -/
def callInvVC (vc : VideoCall) : Prop := vc.active = true ↔ vc.participants ≠ []

/-- The video-call invariant, for every room of the store. -/
def CallInv (st : Store) : Prop := ∀ p ∈ st, callInvVC p.2.video_call

instance decCallInvVC (vc : VideoCall) : Decidable (callInvVC vc) := by
  unfold callInvVC; infer_instance

instance decCallInv (st : Store) : Decidable (CallInv st) := by
  unfold CallInv; infer_instance

/-- The participant invariant of §3: `participants` duplicate-free and a
subset of the room's member keys. -/
def partInvRoom (r : Room) : Prop :=
  r.video_call.participants.Nodup ∧
  ∀ x ∈ r.video_call.participants, (alookup r.users x).isSome = true

/-- The participant invariant, for every room of the store. -/
def PartInv (st : Store) : Prop := ∀ p ∈ st, partInvRoom p.2

instance decPartInvRoom (r : Room) : Decidable (partInvRoom r) := by
  unfold partInvRoom; infer_instance

instance decPartInv (st : Store) : Decidable (PartInv st) := by
  unfold PartInv; infer_instance

/-- Display names pairwise distinct under case-insensitive comparison. -/
def NamesInv (st : Store) : Prop :=
  ∀ p ∈ st, (avalues p.2.users).Pairwise (fun a b => strLower a ≠ strLower b)

instance decNamesInv (st : Store) : Decidable (NamesInv st) := by
  unfold NamesInv; infer_instance

/-- Membership test every room-scoped handler performs:
`room_id in active_rooms and request.sid in active_rooms[room_id]['users']`. -/
def isMemberOf (st : Store) (sid : Sid) (rid : String) : Bool :=
  match alookup st rid with
  | some r => (alookup r.users sid).isSome
  | none => false

/-- The payloads of the `new_message` events broadcast to room `rid`, in
emission order. -/
def newMessagesTo (outs : List Out) (rid : String) : List Message :=
  outs.filterMap (fun o =>
    match o with
    | (Addr.broadcast r _, Event.new_message m) => if r = rid then some m else none
    | _ => none)

/-- The events delivered to connection `o`: unicasts addressed to it and
broadcasts whose resolved recipient list contains it. -/
def observedBy (outs : List Out) (o : Sid) : List Event :=
  outs.filterMap (fun p =>
    match p.1 with
    | .conn s => if s = o then some p.2 else none
    | .broadcast _ recips => if o ∈ recips then some p.2 else none)

/-- Restrict an event sequence to the payloads of its `new_message` events. -/
def newMessagePayloads (evs : List Event) : List Message :=
  evs.filterMap (fun e => match e with | .new_message m => some m | _ => none)

/-- The operations that preserve the video-call invariant (C1 amended): all
but `join_video_call`, `leave_room` and `disconnect`. -/
def allowedC1 : Op → Bool
  | .join_video_call .. => false
  | .leave_room .. => false
  | .disconnect .. => false
  | _ => true

/-- Every operation other than `create_room` (C5 amended). -/
def notCreate : Op → Bool
  | .create_room .. => false
  | _ => true

/-- A `start_video_call` is safe when its caller is not already a participant
of the target room's call (C6 amended); every other operation is safe. -/
def safeStart (st : Store) : Op → Bool
  | .start_video_call sid rid _ =>
    match alookup st (normRoomId rid) with
    | some r => decide (sid ∉ r.video_call.participants)
    | none => true
  | _ => true

/-- Stores reachable from the empty store by well-formed operations among
which no `start_video_call` is issued by an existing call participant. -/
inductive ReachableSafe : Store → Prop
  | init : ReachableSafe []
  | next {st : Store} {op : Op} : ReachableSafe st → wfOp st op = true →
      safeStart st op = true → ReachableSafe (stepSt st op)

/-- A concrete voice payload one byte over the 5 MiB ceiling. -/
def bigAudio : String := String.mk (List.replicate (5 * 1024 * 1024 + 1) 'a')

/-- A one-member room used to instantiate theorems at a concrete input. -/
def soloRoom : Room :=
  { users := [(1, "alice")], messages := [],
    video_call := { active := false, participants := [] } }

/-- A one-room store used to instantiate theorems at a concrete input. -/
def soloStore : Store := [("R", soloRoom)]

/-! ## Association-list lemmas -/

theorem akeys_nil {α β : Type} : akeys ([] : List (α × β)) = [] := rfl

theorem akeys_cons {α β : Type} (a : α) (b : β) (t : List (α × β)) :
    akeys ((a, b) :: t) = a :: akeys t := rfl

theorem alookup_aset_self {α β : Type} [DecidableEq α] (l : List (α × β)) (k : α) (v : β) :
    alookup (aset l k v) k = some v := by
  induction l with
  | nil => simp [aset, alookup]
  | cons h t ih =>
    obtain ⟨k', v'⟩ := h
    by_cases hk : k' = k <;> simp [aset, alookup, hk, ih]

theorem alookup_aset_ne {α β : Type} [DecidableEq α] (l : List (α × β)) (k k' : α) (v : β)
    (h : k' ≠ k) : alookup (aset l k v) k' = alookup l k' := by
  have hk : ¬(k = k') := fun he => h he.symm
  induction l with
  | nil => simp [aset, alookup, hk]
  | cons hd t ih =>
    obtain ⟨a, b⟩ := hd
    by_cases ha : a = k
    · subst ha
      simp [aset, alookup, hk]
    · by_cases ha' : a = k' <;> simp [aset, alookup, h, ha, ha', ih]

theorem mem_aset {α β : Type} [DecidableEq α] {l : List (α × β)} {k : α} {v : β}
    {p : α × β} (h : p ∈ aset l k v) : p = (k, v) ∨ p ∈ l := by
  induction l with
  | nil => simpa [aset] using h
  | cons hd t ih =>
    obtain ⟨a, b⟩ := hd
    by_cases ha : a = k
    · subst ha
      rcases (by simpa [aset] using h : p = (a, v) ∨ p ∈ t) with h1 | h1
      · exact Or.inl h1
      · exact Or.inr (List.mem_cons_of_mem _ h1)
    · rcases (by simpa [aset, ha] using h : p = (a, b) ∨ p ∈ aset t k v) with h1 | h1
      · exact Or.inr (by simp [h1])
      · rcases ih h1 with h2 | h2
        · exact Or.inl h2
        · exact Or.inr (List.mem_cons_of_mem _ h2)

theorem alookup_mem {α β : Type} [DecidableEq α] {l : List (α × β)} {k : α} {v : β}
    (h : alookup l k = some v) : (k, v) ∈ l := by
  induction l with
  | nil => simp [alookup] at h
  | cons hd t ih =>
    obtain ⟨a, b⟩ := hd
    by_cases ha : a = k
    · subst ha
      simp [alookup] at h
      simp [h]
    · simp [alookup, ha] at h
      exact List.mem_cons_of_mem _ (ih h)

theorem mem_adel {α β : Type} [DecidableEq α] {l : List (α × β)} {k : α} {p : α × β}
    (h : p ∈ adel l k) : p ∈ l := by
  induction l with
  | nil => simpa [adel] using h
  | cons hd t ih =>
    obtain ⟨a, b⟩ := hd
    by_cases ha : a = k
    · exact List.mem_cons_of_mem _ (by simpa [adel, ha] using h)
    · rcases (by simpa [adel, ha] using h : p = (a, b) ∨ p ∈ adel t k) with h1 | h1
      · simp [h1]
      · exact List.mem_cons_of_mem _ (ih h1)

theorem alookup_adel_ne {α β : Type} [DecidableEq α] (l : List (α × β)) (k k' : α)
    (h : k' ≠ k) : alookup (adel l k) k' = alookup l k' := by
  have hk : ¬(k = k') := fun he => h he.symm
  induction l with
  | nil => simp [adel]
  | cons hd t ih =>
    obtain ⟨a, b⟩ := hd
    by_cases ha : a = k
    · subst ha
      simp [adel, alookup, hk]
    · by_cases ha' : a = k' <;> simp [adel, alookup, h, ha, ha', ih]

theorem akeys_aset_of_mem {α β : Type} [DecidableEq α] (l : List (α × β)) (k : α) (v : β)
    (h : (alookup l k).isSome) : akeys (aset l k v) = akeys l := by
  induction l with
  | nil => simp [alookup] at h
  | cons hd t ih =>
    obtain ⟨a, b⟩ := hd
    by_cases ha : a = k
    · subst ha
      simp [aset, akeys]
    · simp [alookup, ha] at h
      simp [aset, akeys, ha] at ih ⊢
      exact ih h

theorem akeys_adel_sublist {α β : Type} [DecidableEq α] (l : List (α × β)) (k : α) :
    (akeys (adel l k)).Sublist (akeys l) := by
  induction l with
  | nil => simp [adel, akeys]
  | cons hd t ih =>
    obtain ⟨a, b⟩ := hd
    by_cases ha : a = k
    · simpa [adel, akeys, ha] using List.sublist_cons_of_sublist a (List.Sublist.refl _)
    · simpa [adel, akeys, ha] using List.Sublist.cons₂ a ih

theorem alookup_isNone_of_not_mem_akeys {α β : Type} [DecidableEq α] {l : List (α × β)}
    {k : α} (h : k ∉ akeys l) : alookup l k = none := by
  induction l with
  | nil => rfl
  | cons hd t ih =>
    obtain ⟨a, b⟩ := hd
    rw [akeys_cons] at h
    have h1 : ¬(a = k) := fun he => h (he ▸ List.mem_cons_self a (akeys t))
    have h2 : k ∉ akeys t := fun hm => h (List.mem_cons_of_mem a hm)
    simp only [alookup, if_neg h1]
    exact ih h2

theorem not_mem_akeys_adel_of_nodup {α β : Type} [DecidableEq α] {l : List (α × β)} {k : α}
    (h : (akeys l).Nodup) : k ∉ akeys (adel l k) := by
  induction l with
  | nil => simp [adel, akeys_nil]
  | cons hd t ih =>
    obtain ⟨a, b⟩ := hd
    rw [akeys_cons, List.nodup_cons] at h
    by_cases ha : a = k
    · subst ha
      simpa only [adel, if_pos rfl] using h.1
    · simp only [adel, if_neg ha, akeys_cons]
      intro hmem
      rcases List.mem_cons.mp hmem with he | hmem2
      · exact ha he.symm
      · exact ih h.2 hmem2

theorem alookup_adel_self_of_nodup {α β : Type} [DecidableEq α] {l : List (α × β)} {k : α}
    (h : (akeys l).Nodup) : alookup (adel l k) k = none :=
  alookup_isNone_of_not_mem_akeys (not_mem_akeys_adel_of_nodup h)

theorem aset_aset {α β : Type} [DecidableEq α] (l : List (α × β)) (k : α) (v w : β) :
    aset (aset l k v) k w = aset l k w := by
  induction l with
  | nil => simp [aset]
  | cons hd t ih =>
    obtain ⟨a, b⟩ := hd
    by_cases ha : a = k <;> simp [aset, ha, ih]

theorem ite_cond_true {α : Type} {a b : α} : (if true = true then a else b) = a := rfl

theorem ite_cond_false {α : Type} {a b : α} : (if false = true then a else b) = b := rfl

theorem updRoom_eq_aset {st : Store} {rid : String} {r : Room}
    (hr : alookup st rid = some r) (f : Room → Room) :
    updRoom st rid f = aset st rid (f r) := by
  unfold updRoom
  rw [hr]

theorem alookup_updRoom_self (st : Store) (rid : String) (f : Room → Room) :
    alookup (updRoom st rid f) rid = (alookup st rid).map f := by
  unfold updRoom
  cases h : alookup st rid with
  | none => simp [h]
  | some r => simp [h, alookup_aset_self]

theorem alookup_updRoom_ne (st : Store) (rid x : String) (f : Room → Room) (h : x ≠ rid) :
    alookup (updRoom st rid f) x = alookup st x := by
  unfold updRoom
  cases hl : alookup st rid with
  | none => rfl
  | some r => simp [alookup_aset_ne _ _ _ _ h]

theorem mem_updRoom {st : Store} {rid : String} {f : Room → Room} {p : String × Room}
    (h : p ∈ updRoom st rid f) :
    p ∈ st ∨ ∃ r, alookup st rid = some r ∧ p = (rid, f r) := by
  unfold updRoom at h
  cases hl : alookup st rid with
  | none => rw [hl] at h; exact Or.inl h
  | some r =>
    rw [hl] at h
    rcases mem_aset h with h1 | h1
    · exact Or.inr ⟨r, rfl, h1⟩
    · exact Or.inl h1

theorem updRoom_updRoom (st : Store) (rid : String) (f g : Room → Room) :
    updRoom (updRoom st rid f) rid g = updRoom st rid (fun r => g (f r)) := by
  unfold updRoom
  cases hl : alookup st rid with
  | none => simp [hl]
  | some r => simp [hl, alookup_aset_self, aset_aset]

theorem akeys_updRoom (st : Store) (rid : String) (f : Room → Room) :
    akeys (updRoom st rid f) = akeys st := by
  unfold updRoom
  cases hl : alookup st rid with
  | none => rfl
  | some r => exact akeys_aset_of_mem _ _ _ (by simp [hl])

/-! ## Claim C10 -/

/-- C10: a `send_message` whose text is empty or whitespace-only after
trimming returns silently — no outbound event and no state change — even when
the sender is not a member of the named room or the room does not exist,
because the emptiness check precedes the membership check. -/
theorem C10_blank_message_silent (st : Store) (sid : Sid) (rid msg ts : String)
    (h : strTrim msg = "") :
    step st (.send_message sid rid msg ts) = (st, []) := by
  simp [step, handle_send_message, h]

/-- C10 witness: three spaces on the empty store (no room, no membership). -/
theorem C10_witness :
    strTrim "   " = "" ∧ step [] (.send_message 1 "R" "   " "09:00") = ([], []) :=
  ⟨by decide, C10_blank_message_silent [] 1 "R" "   " "09:00" (by decide)⟩

/-! ## Claim C9 -/

theorem string_mk_data (l : List Char) : (String.mk l).data = l := rfl

theorem bigAudio_data_length : bigAudio.data.length = 5 * 1024 * 1024 + 1 := by
  unfold bigAudio
  rw [string_mk_data, List.length_replicate]

theorem bigAudio_ne_empty : bigAudio ≠ "" := by
  intro h
  have h0 : bigAudio.data.length = 0 := by rw [h]; rfl
  rw [bigAudio_data_length] at h0
  omega

/-- C9: a `send_voice_note` from a room member whose payload exceeds 5 MiB
fails with the payload-too-large error reported to the sender only, the store
(hence every history) is unchanged and nothing is broadcast; the 5 MiB
ceiling the handler checks is strictly below the 10 MiB transport-level
`MAX_CONTENT_LENGTH`. -/
theorem C9_oversized_voice_rejected (st : Store) (sid : Sid) (rid ad : String)
    (dur : Nat) (ts : String) (r : Room) (username : String)
    (hr : alookup st (normRoomId rid) = some r)
    (hu : alookup r.users sid = some username)
    (hne : ad ≠ "")
    (hbig : ad.data.length > VOICE_NOTE_LIMIT) :
    step st (.send_voice_note sid rid ad dur ts) =
      (st, [(.conn sid, .error "Voice note too large (max 5MB)")]) ∧
    VOICE_NOTE_LIMIT < MAX_CONTENT_LENGTH := by
  have hbig' : ad.data.length > 5 * 1024 * 1024 := hbig
  have hbig2 : (5 : Nat) * 1024 * 1024 < ad.length := hbig'
  refine ⟨?_, by decide⟩
  simp [step, handle_send_voice_note, hne, hr, hu, hbig', hbig2]

/-- C9 witness: a member of a concrete room sends a payload one byte over
the ceiling. -/
theorem C9_witness :
    alookup soloStore (normRoomId "R") = some soloRoom ∧
    alookup soloRoom.users 1 = some "alice" ∧
    bigAudio ≠ "" ∧ bigAudio.data.length > VOICE_NOTE_LIMIT ∧
    (step soloStore (.send_voice_note 1 "R" bigAudio 7 "09:00") =
      (soloStore, [(.conn 1, .error "Voice note too large (max 5MB)")]) ∧
     VOICE_NOTE_LIMIT < MAX_CONTENT_LENGTH) :=
  ⟨by decide, by decide, bigAudio_ne_empty, by rw [bigAudio_data_length]; decide,
   C9_oversized_voice_rejected soloStore 1 "R" bigAudio 7 "09:00" soloRoom "alice"
     (by decide) (by decide) bigAudio_ne_empty
     (by rw [bigAudio_data_length]; decide)⟩

/-! ## Counterexamples refuting claims as stated -/

/-- C1 counterexample: after `join_room` then `join_video_call` (on a room
with no active call), the participants list is non-empty while `active` is
still `false` — `handle_join_video_call` never sets the flag — so the claimed
biconditional fails on a reachable store. -/
theorem C1_counterexample :
    (alookup (run [] [Op.join_room 1 "R" "alice" "09:00",
        Op.join_video_call 1 "R" "09:01"]) "R").map
      (fun r => (r.video_call.active, r.video_call.participants)) = some (false, [1]) ∧
    ¬ CallInv (run [] [Op.join_room 1 "R" "alice" "09:00",
        Op.join_video_call 1 "R" "09:01"]) := by
  constructor
  · decide
  · decide

/-- C2 counterexample: an always-connected member (connection 1, the room's
first joiner) receives no `new_message` event at all over a trace after which
the room's history has two entries (the two join system messages), so
replaying history does not reproduce the member's `new_message` stream. -/
theorem C2_counterexample :
    newMessagePayloads (observedBy (runOuts [] [Op.join_room 1 "R" "alice" "09:00",
      Op.join_room 2 "R" "bob" "09:01"]).2 1) = [] ∧
    (histOf (runOuts [] [Op.join_room 1 "R" "alice" "09:00",
      Op.join_room 2 "R" "bob" "09:01"]).1 "R").length = 2 ∧
    histOf (runOuts [] [Op.join_room 1 "R" "alice" "09:00",
        Op.join_room 2 "R" "bob" "09:01"]).1 "R" ≠
      newMessagePayloads (observedBy (runOuts [] [Op.join_room 1 "R" "alice" "09:00",
        Op.join_room 2 "R" "bob" "09:01"]).2 1) := by
  refine ⟨by decide, by decide, by decide⟩

/-- C3 counterexample: a connection that is not a member of room `R` invokes
`leave_room` and receives no error at all — the handler silently returns —
contradicting the claim that every room-scoped operation reports a
not-a-member error to the originator. -/
theorem C3_counterexample :
    isMemberOf (run [] [Op.join_room 2 "R" "bob" "09:00"]) 1 (normRoomId "R") = false ∧
    step (run [] [Op.join_room 2 "R" "bob" "09:00"]) (Op.leave_room 1 "R" "09:01") =
      (run [] [Op.join_room 2 "R" "bob" "09:00"], []) := by
  constructor
  · decide
  · decide

/-- C4 counterexample: after a first `leave_video_call` the second one by the
same still-connected member appends two further system messages ("Video call
ended" and "... left the video call") to history and emits further events, so
it is not a no-op. -/
theorem C4_counterexample :
    (histOf (stepSt (run [] [Op.join_room 1 "R" "alice" "09:00",
        Op.start_video_call 1 "R" "09:01", Op.leave_video_call 1 "R" "09:02"])
        (Op.leave_video_call 1 "R" "09:03")) "R").length =
      (histOf (run [] [Op.join_room 1 "R" "alice" "09:00",
        Op.start_video_call 1 "R" "09:01", Op.leave_video_call 1 "R" "09:02"]) "R").length
        + 2 ∧
    (step (run [] [Op.join_room 1 "R" "alice" "09:00",
        Op.start_video_call 1 "R" "09:01", Op.leave_video_call 1 "R" "09:02"])
        (Op.leave_video_call 1 "R" "09:03")).2 ≠ [] := by
  constructor
  · decide
  · decide

/-- C5 counterexample: `create_room` (with a fresh, well-formed id) installs a
room whose `users` mapping is empty — the creator does not join it — so the
store does contain a member-less room after an operation. -/
theorem C5_counterexample :
    wfOp [] (Op.create_room 1 "ABC123") = true ∧
    (alookup (stepSt [] (Op.create_room 1 "ABC123")) "ABC123").map Room.users =
      some [] := by
  constructor
  · decide
  · decide

/-- C6 counterexample: `start_video_call` appends the caller to
`participants` unconditionally, so starting twice yields the duplicate list
`[1, 1]`, refuting the claimed absence of duplicates. -/
theorem C6_counterexample :
    (alookup (run [] [Op.join_room 1 "R" "alice" "09:00",
        Op.start_video_call 1 "R" "09:01", Op.start_video_call 1 "R" "09:02"]) "R").map
      (fun r => r.video_call.participants) = some [1, 1] ∧
    ¬ PartInv (run [] [Op.join_room 1 "R" "alice" "09:00",
        Op.start_video_call 1 "R" "09:01", Op.start_video_call 1 "R" "09:02"]) := by
  constructor
  · decide
  · decide

/-! ## Claim C3 (amended) -/

/-- C3 amended: for a connection that is not a member of the named room (or a
room absent from the store), `send_message` with non-blank text,
`send_voice_note` with a non-empty payload, `start_video_call` and
`join_video_call` report the not-a-member error to the originating connection
only and leave the store unchanged; `leave_room` and `leave_video_call`
instead return silently — no event at all — and also leave the store
unchanged. -/
theorem C3_amended (st : Store) (sid : Sid) (rid : String)
    (hnm : isMemberOf st sid (normRoomId rid) = false) :
    (∀ msg ts, strTrim msg ≠ "" →
      step st (.send_message sid rid msg ts) =
        (st, [(.conn sid, .error "You are not in this room")])) ∧
    (∀ ad dur ts, ad ≠ "" →
      step st (.send_voice_note sid rid ad dur ts) =
        (st, [(.conn sid, .error "You are not in this room")])) ∧
    (∀ ts, step st (.start_video_call sid rid ts) =
      (st, [(.conn sid, .error "You are not in this room")])) ∧
    (∀ ts, step st (.join_video_call sid rid ts) =
      (st, [(.conn sid, .error "You are not in this room")])) ∧
    (∀ ts, step st (.leave_room sid rid ts) = (st, [])) ∧
    (∀ ts, step st (.leave_video_call sid rid ts) = (st, [])) := by
  unfold isMemberOf at hnm
  cases hl : alookup st (normRoomId rid) with
  | none =>
    refine ⟨?_, ?_, ?_, ?_, ?_, ?_⟩ <;> intros <;>
      simp [step, handle_send_message, handle_send_voice_note, handle_start_video_call,
        handle_join_video_call, handle_leave_room, handle_leave_video_call, hl, *]
  | some r =>
    rw [hl] at hnm
    simp at hnm
    have hu : alookup r.users sid = none := by
      cases h2 : alookup r.users sid with
      | none => rfl
      | some u => rw [h2] at hnm; simp at hnm
    refine ⟨?_, ?_, ?_, ?_, ?_, ?_⟩ <;> intros <;>
      simp [step, handle_send_message, handle_send_voice_note, handle_start_video_call,
        handle_join_video_call, handle_leave_room, handle_leave_video_call, hl, hu, *]

/-- C3 witness: connection 2 is not a member of room `R` of the concrete
store; each operation behaves as the amended claim states. -/
theorem C3_witness :
    isMemberOf soloStore 2 (normRoomId "R") = false ∧ strTrim "hi" ≠ "" ∧
    ("x" : String) ≠ "" ∧
    step soloStore (.send_message 2 "R" "hi" "09:00") =
      (soloStore, [(.conn 2, .error "You are not in this room")]) ∧
    step soloStore (.send_voice_note 2 "R" "x" 1 "09:00") =
      (soloStore, [(.conn 2, .error "You are not in this room")]) ∧
    step soloStore (.start_video_call 2 "R" "09:00") =
      (soloStore, [(.conn 2, .error "You are not in this room")]) ∧
    step soloStore (.join_video_call 2 "R" "09:00") =
      (soloStore, [(.conn 2, .error "You are not in this room")]) ∧
    step soloStore (.leave_room 2 "R" "09:00") = (soloStore, []) ∧
    step soloStore (.leave_video_call 2 "R" "09:00") = (soloStore, []) := by
  have h := C3_amended soloStore 2 "R" (by decide)
  exact ⟨by decide, by decide, by decide, h.1 "hi" "09:00" (by decide),
    h.2.1 "x" 1 "09:00" (by decide), h.2.2.1 "09:00", h.2.2.2.1 "09:00",
    h.2.2.2.2.1 "09:00", h.2.2.2.2.2 "09:00"⟩

/-! ## Claim C4 (amended) -/

/-- C4 amended: a second `leave_video_call` by the same still-connected member
leaves the participants list and the active flag unchanged (they are
idempotent), but it is not a no-op: it appends the "left the video call"
system message again (preceded by "Video call ended" when the participants
list is empty) and re-emits the corresponding events to the room.
The hypotheses describe the state after the first call: the member is no
longer a participant, and the flag is off whenever the list is empty. -/
theorem C4_amended (st : Store) (sid : Sid) (rid ts : String) (r : Room)
    (username : String)
    (hr : alookup st (normRoomId rid) = some r)
    (hu : alookup r.users sid = some username)
    (hnotin : sid ∉ r.video_call.participants)
    (hact : r.video_call.participants = [] → r.video_call.active = false) :
    alookup (stepSt st (.leave_video_call sid rid ts)) (normRoomId rid) =
      some { users := r.users,
             messages := r.messages ++
               (if r.video_call.participants = []
                 then [mkSystemMessage "Video call ended" ts] else []) ++
               [mkSystemMessage (username ++ " left the video call") ts],
             video_call := r.video_call } ∧
    (step st (.leave_video_call sid rid ts)).2 =
      (if r.video_call.participants = []
        then [((Addr.broadcast (normRoomId rid) (akeys r.users)),
                Event.video_call_ended)] else []) ++
      [((Addr.broadcast (normRoomId rid) (akeys r.users)), Event.user_left_call sid username),
       ((Addr.broadcast (normRoomId rid) (akeys r.users)),
         Event.new_message (mkSystemMessage (username ++ " left the video call") ts))] := by
  have herase : r.video_call.participants.erase sid = r.video_call.participants :=
    List.erase_of_not_mem hnotin
  by_cases hp : r.video_call.participants = []
  · have hact' : r.video_call.active = false := hact hp
    have hvc : r.video_call = { active := false, participants := [] } := by
      have he : r.video_call =
          { active := r.video_call.active, participants := r.video_call.participants } := rfl
      rw [he, hact', hp]
    constructor <;>
      simp [stepSt, step, handle_leave_video_call, hr, hu, herase, hp, hact', hvc,
        add_system_message, updRoom_updRoom, alookup_updRoom_self, roomRecipients,
        if_pos rfl]
  · constructor <;>
      simp [stepSt, step, handle_leave_video_call, hr, hu, herase, hp,
        add_system_message, updRoom_updRoom, alookup_updRoom_self, roomRecipients,
        List.length_eq_zero]

/-- C4 witness: member 1 of the concrete store (call inactive, no
participants — the state a first `leave_video_call` leaves behind) invokes
`leave_video_call` again. -/
theorem C4_witness :
    alookup soloStore (normRoomId "R") = some soloRoom ∧
    alookup soloRoom.users 1 = some "alice" ∧
    (1 : Sid) ∉ soloRoom.video_call.participants ∧
    (soloRoom.video_call.participants = [] → soloRoom.video_call.active = false) ∧
    (alookup (stepSt soloStore (.leave_video_call 1 "R" "09:07")) (normRoomId "R") =
      some { users := soloRoom.users,
             messages := soloRoom.messages ++
               (if soloRoom.video_call.participants = []
                 then [mkSystemMessage "Video call ended" "09:07"] else []) ++
               [mkSystemMessage ("alice" ++ " left the video call") "09:07"],
             video_call := soloRoom.video_call } ∧
     (step soloStore (.leave_video_call 1 "R" "09:07")).2 =
      (if soloRoom.video_call.participants = []
        then [((Addr.broadcast (normRoomId "R") (akeys soloRoom.users)),
                Event.video_call_ended)] else []) ++
      [((Addr.broadcast (normRoomId "R") (akeys soloRoom.users)),
         Event.user_left_call 1 "alice"),
       ((Addr.broadcast (normRoomId "R") (akeys soloRoom.users)),
         Event.new_message (mkSystemMessage ("alice" ++ " left the video call") "09:07"))]) :=
  ⟨by decide, by decide, by decide, by decide,
   C4_amended soloStore 1 "R" "09:07" soloRoom "alice"
     (by decide) (by decide) (by decide) (by decide)⟩

/-! ## Claim C1 (amended): preservation of the video-call invariant -/

theorem callInvVC_emptyRoom : callInvVC emptyRoom.video_call := by
  simp [callInvVC, emptyRoom]

theorem CallInv_aset (st : Store) (rid : String) (r : Room)
    (hinv : CallInv st) (hr : callInvVC r.video_call) : CallInv (aset st rid r) := by
  intro p hp
  rcases mem_aset hp with h | h
  · rw [h]; exact hr
  · exact hinv p h

theorem CallInv_updRoom (st : Store) (rid : String) (f : Room → Room)
    (hinv : CallInv st)
    (hf : ∀ r, alookup st rid = some r → callInvVC r.video_call →
      callInvVC (f r).video_call) :
    CallInv (updRoom st rid f) := by
  intro p hp
  rcases mem_updRoom hp with h | ⟨r, hl, he⟩
  · exact hinv p h
  · rw [he]; exact hf r hl (hinv (rid, r) (alookup_mem hl))

theorem CallInv_adel (st : Store) (rid : String) (hinv : CallInv st) :
    CallInv (adel st rid) := fun p hp => hinv p (mem_adel hp)

theorem CallInv_add_system_message (st : Store) (rid t ts : String) (hinv : CallInv st) :
    CallInv (add_system_message st rid t ts) :=
  CallInv_updRoom _ _ _ hinv (fun _ _ h => h)

/-- C1 amended: the invariant `active == (participants ≠ [])` holds for every
room after every operation other than `join_video_call`, `leave_room` and
`disconnect`, provided it held before: it is established by
`start_video_call` and preserved by `create_room`, `join_room`,
`send_message`, `send_voice_note` and `leave_video_call`.  (It is violated by
`join_video_call` on an inactive call, which fills `participants` without
raising `active`, and by `leave_room`/`disconnect` removing the sole call
participant from a room that keeps other members, which empty `participants`
without clearing `active`.) -/
theorem C1_amended (st : Store) (op : Op) (hallow : allowedC1 op = true)
    (hinv : CallInv st) : CallInv (stepSt st op) := by
  cases op with
  | join_video_call sid rid ts => simp [allowedC1] at hallow
  | leave_room sid rid ts => simp [allowedC1] at hallow
  | disconnect sid ts => simp [allowedC1] at hallow
  | create_room sid rid =>
    simpa [stepSt, step, handle_create_room] using
      CallInv_aset st rid emptyRoom hinv callInvVC_emptyRoom
  | join_room sid rid u ts =>
    simp only [stepSt, step, handle_join_room]
    split_ifs with h1 h2 h3 h4 h5 h6 <;>
      first
      | exact hinv
      | (apply CallInv_aset st _ emptyRoom hinv callInvVC_emptyRoom)
      | (apply CallInv_add_system_message
          <;> apply CallInv_updRoom <;> try exact fun _ _ h => h)
      <;> first
        | exact hinv
        | exact CallInv_aset st _ emptyRoom hinv callInvVC_emptyRoom
  | send_message sid rid m ts =>
    simp only [stepSt, step, handle_send_message]
    by_cases h1 : strTrim m = ""
    · rw [if_pos h1]
      exact hinv
    · rw [if_neg h1]
      cases hl : alookup st (normRoomId rid) <;> dsimp only
      · exact hinv
      · rename_i r
        cases hu : alookup r.users sid <;> dsimp only
        · exact hinv
        · exact CallInv_updRoom st _ _ hinv (fun _ _ h => h)
  | send_voice_note sid rid ad dur ts =>
    simp only [stepSt, step, handle_send_voice_note]
    by_cases h1 : ad = ""
    · rw [if_pos h1]
      exact hinv
    · rw [if_neg h1]
      cases hl : alookup st (normRoomId rid) <;> dsimp only
      · exact hinv
      · rename_i r
        cases hu : alookup r.users sid <;> dsimp only
        · exact hinv
        · rename_i username
          by_cases h2 : ad.data.length > 5 * 1024 * 1024
          · rw [if_pos h2]
            exact hinv
          · rw [if_neg h2]
            exact CallInv_updRoom st _ _ hinv (fun _ _ h => h)
  | start_video_call sid rid ts =>
    simp only [stepSt, step, handle_start_video_call]
    cases hl : alookup st (normRoomId rid) <;> dsimp only
    · exact hinv
    · rename_i r
      cases hu : alookup r.users sid <;> dsimp only
      · exact hinv
      · apply CallInv_add_system_message
        apply CallInv_updRoom st _ _ hinv
        intro r' _ _
        simp [callInvVC]
  | leave_video_call sid rid ts =>
    simp only [stepSt, step, handle_leave_video_call]
    cases hl : alookup st (normRoomId rid) <;> dsimp only
    · exact hinv
    · rename_i r
      cases hu : alookup r.users sid <;> dsimp only
      · exact hinv
      · rename_i username
        simp only [add_system_message]
        by_cases hemp : (r.video_call.participants.erase sid).length = 0 <;>
          simp only [hemp, if_true, if_false, ite_true, ite_false, updRoom_updRoom] <;>
          apply CallInv_updRoom st _ _ hinv <;>
          intro r' hl' hvc'
        · rw [hl] at hl'
          cases hl'
          have he : r.video_call.participants.erase sid = [] :=
            List.length_eq_zero.mp hemp
          simp [callInvVC, he]
        · rw [hl] at hl'
          cases hl'
          have he : r.video_call.participants.erase sid ≠ [] := by
            intro h0
            exact hemp (by rw [h0]; rfl)
          have hne : r.video_call.participants ≠ [] := by
            intro h0
            exact he (by rw [h0]; rfl)
          simp only [callInvVC] at hvc' ⊢
          simpa [he] using hvc'.mpr hne

/-- C1 witness: the invariant holds after `start_video_call` on the concrete
one-room store. -/
theorem C1_witness :
    allowedC1 (Op.start_video_call 1 "R" "09:01") = true ∧ CallInv soloStore ∧
    CallInv (stepSt soloStore (Op.start_video_call 1 "R" "09:01")) :=
  ⟨by decide, by decide,
   C1_amended soloStore (Op.start_video_call 1 "R" "09:01") (by decide) (by decide)⟩

/-! ## Claim C5 (amended): member removal never leaves an empty room behind -/

theorem aset_ne_nil {α β : Type} [DecidableEq α] (l : List (α × β)) (k : α) (v : β) :
    aset l k v ≠ [] := by
  cases l with
  | nil => simp [aset]
  | cons hd t =>
    obtain ⟨a, b⟩ := hd
    by_cases ha : a = k <;> simp [aset, ha]

/-- The state component of `handle_disconnect` is the plain fold of
`disconnectRoom` states. -/
theorem handle_disconnect_state (st : Store) (sid : Sid) (ts : String) :
    (handle_disconnect st sid ts).1 =
      ((st.filter (fun p => (alookup p.2.users sid).isSome)).map Prod.fst).foldl
        (fun s rid => (disconnectRoom sid ts s rid).1) st := by
  unfold handle_disconnect
  generalize (st.filter (fun p => (alookup p.2.users sid).isSome)).map Prod.fst = l
  suffices h : ∀ (acc : Store × List Out),
      (l.foldl (fun acc rid =>
        ((disconnectRoom sid ts acc.1 rid).1,
         acc.2 ++ (disconnectRoom sid ts acc.1 rid).2)) acc).1 =
      l.foldl (fun s rid => (disconnectRoom sid ts s rid).1) acc.1 by
    exact h (st, [])
  induction l with
  | nil => intro acc; rfl
  | cons hd t ih => intro acc; exact ih _

theorem akeys_disconnectRoom_sublist (sid : Sid) (ts : String) (st : Store) (rid : String) :
    (akeys (disconnectRoom sid ts st rid).1).Sublist (akeys st) := by
  unfold disconnectRoom
  cases hl : alookup st rid <;> dsimp only
  · exact List.Sublist.refl _
  · rename_i r
    by_cases hin : sid ∈ r.video_call.participants <;>
      simp only [hin, ite_true, ite_false] <;>
      split <;>
      simp only [add_system_message, updRoom_updRoom, akeys_updRoom] <;>
      first
        | exact (akeys_adel_sublist _ _).trans (by simp only [akeys_updRoom]; exact List.Sublist.refl _)
        | exact List.Sublist.refl _

/-- `disconnectRoom` never leaves behind an empty-membership room that was not
already in the store: any room it empties is deleted on the spot. -/
theorem disconnectRoom_keeps_no_empty (sid : Sid) (ts : String) (st : Store) (rid : String)
    (hnodup : (akeys st).Nodup) (x : String) (r' : Room)
    (hl : alookup (disconnectRoom sid ts st rid).1 x = some r') (he : r'.users = []) :
    alookup st x = some r' := by
  unfold disconnectRoom at hl
  cases hr : alookup st rid with
  | none => rw [hr] at hl; exact hl
  | some r =>
    rw [hr] at hl
    dsimp only at hl
    by_cases hin : sid ∈ r.video_call.participants <;>
      simp only [hin, ite_true, ite_false, add_system_message, updRoom_updRoom] at hl <;>
      rw [updRoom_eq_aset hr] at hl <;>
      split at hl <;>
      split at hl <;>
      first
      | (by_cases hx : x = rid
         · subst hx
           rw [alookup_adel_self_of_nodup
             (by rw [akeys_aset_of_mem _ _ _ (by simp [hr])]; exact hnodup)] at hl
           exact absurd hl (by simp)
         · rw [alookup_adel_ne _ _ _ hx, alookup_aset_ne _ _ _ _ hx] at hl
           exact hl)
      | (rename_i hlen
         rw [alookup_aset_self] at hlen
         simp only [Option.getD_some] at hlen
         by_cases hx : x = rid
         · subst hx
           rw [alookup_aset_self] at hl
           cases hl
           exact absurd (congrArg List.length he) hlen
         · rw [alookup_aset_ne _ _ _ _ hx] at hl
           exact hl)

/-- C5 amended: after every operation other than `create_room`, any room in
the store whose members mapping is empty was already in the store with that
same (empty) state before the operation: the instant a room's last member is
removed by `leave_room` or `disconnect` the room id is deleted, and no other
operation empties a room.  (`create_room` is the exception the counterexample
exhibits: it installs a fresh member-less room.  `hnodup` records that store
keys are unique, as they are for a Python dict.) -/
theorem C5_amended (st : Store) (op : Op) (hnc : notCreate op = true)
    (hnodup : (akeys st).Nodup) (rid : String) (r' : Room)
    (hl : alookup (stepSt st op) rid = some r') (he : r'.users = []) :
    alookup st rid = some r' := by
  cases op with
  | create_room sid rid0 => simp [notCreate] at hnc
  | join_room sid rid0 u ts =>
    simp only [stepSt, step, handle_join_room] at hl
    by_cases h1 : normRoomId rid0 = ""
    · rw [if_pos h1] at hl; exact hl
    rw [if_neg h1] at hl
    by_cases h2 : strTrim u = ""
    · rw [if_pos h2] at hl; exact hl
    rw [if_neg h2] at hl
    cases hr : alookup st (normRoomId rid0) with
    | none =>
      simp only [hr, Option.isNone_none, ite_true, alookup_aset_self, Option.getD_some,
        emptyRoom, avalues, List.map_nil, List.not_mem_nil, if_false,
        add_system_message, updRoom_updRoom] at hl
      by_cases hx : rid = normRoomId rid0
      · subst hx
        rw [alookup_updRoom_self, alookup_aset_self] at hl
        cases hl
        exact absurd he (by simp [aset_ne_nil])
      · rw [alookup_updRoom_ne _ _ _ _ hx, alookup_aset_ne _ _ _ _ hx] at hl
        exact hl
    | some r =>
      simp only [hr, Option.isNone_some, ite_cond_false, Option.getD_some] at hl
      by_cases h3 : strLower (strTrim u) ∈ (avalues r.users).map strLower
      · rw [if_pos h3] at hl; exact hl
      rw [if_neg h3] at hl
      simp only [add_system_message, updRoom_updRoom] at hl
      by_cases hx : rid = normRoomId rid0
      · subst hx
        rw [alookup_updRoom_self, hr] at hl
        cases hl
        exact absurd he (by simp [aset_ne_nil])
      · rw [alookup_updRoom_ne _ _ _ _ hx] at hl
        exact hl
  | leave_room sid rid0 ts =>
    simp only [stepSt, step, handle_leave_room] at hl
    cases hr : alookup st (normRoomId rid0) with
    | none => rw [hr] at hl; exact hl
    | some r =>
      rw [hr] at hl
      dsimp only at hl
      cases hu : alookup r.users sid with
      | none => rw [hu] at hl; exact hl
      | some username =>
        rw [hu] at hl
        dsimp only at hl
        by_cases hx : rid = normRoomId rid0
        · subst hx
          by_cases hin : sid ∈ r.video_call.participants <;>
            simp only [hin, ite_true, ite_false, add_system_message, updRoom_updRoom] at hl <;>
            rw [alookup_updRoom_self, hr] at hl <;>
            dsimp only [Option.map_some', Option.getD_some] at hl <;>
            split at hl <;>
            first
              | (rw [alookup_adel_self_of_nodup
                    (by simpa only [akeys_updRoom] using hnodup)] at hl
                 exact absurd hl (by simp))
              | (rw [alookup_updRoom_self, hr] at hl
                 rename_i hlen
                 cases hl
                 exact absurd (congrArg List.length he) (by simpa using hlen))
        · by_cases hin : sid ∈ r.video_call.participants <;>
            simp only [hin, ite_true, ite_false, add_system_message, updRoom_updRoom] at hl <;>
            split at hl <;>
            first
              | (rw [alookup_adel_ne _ _ _ hx, alookup_updRoom_ne _ _ _ _ hx] at hl; exact hl)
              | (rw [alookup_updRoom_ne _ _ _ _ hx] at hl; exact hl)
  | disconnect sid ts =>
    rw [stepSt, step, handle_disconnect_state] at hl
    generalize hgen : (st.filter (fun p => (alookup p.2.users sid).isSome)).map Prod.fst = l at hl
    clear hgen
    induction l generalizing st with
    | nil => exact hl
    | cons hd t ih =>
      simp only [List.foldl_cons] at hl
      have hsub := akeys_disconnectRoom_sublist sid ts st hd
      have hnodup2 : (akeys (disconnectRoom sid ts st hd).1).Nodup := hnodup.sublist hsub
      exact disconnectRoom_keeps_no_empty sid ts st hd hnodup _ r' (ih _ hnodup2 hl) he
  | send_message sid rid0 m ts =>
    simp only [stepSt, step, handle_send_message] at hl
    by_cases h1 : strTrim m = ""
    · rw [if_pos h1] at hl; exact hl
    rw [if_neg h1] at hl
    cases hr : alookup st (normRoomId rid0) with
    | none => rw [hr] at hl; exact hl
    | some r =>
      rw [hr] at hl; dsimp only at hl
      cases hu : alookup r.users sid with
      | none => rw [hu] at hl; exact hl
      | some username =>
        rw [hu] at hl; dsimp only at hl
        by_cases hx : rid = normRoomId rid0
        · subst hx
          rw [alookup_updRoom_self, hr] at hl
          cases hl
          rw [he] at hu
          exact absurd hu (by simp [alookup])
        · rw [alookup_updRoom_ne _ _ _ _ hx] at hl; exact hl
  | send_voice_note sid rid0 ad dur ts =>
    simp only [stepSt, step, handle_send_voice_note] at hl
    by_cases h1 : ad = ""
    · rw [if_pos h1] at hl; exact hl
    rw [if_neg h1] at hl
    cases hr : alookup st (normRoomId rid0) with
    | none => rw [hr] at hl; exact hl
    | some r =>
      rw [hr] at hl; dsimp only at hl
      cases hu : alookup r.users sid with
      | none => rw [hu] at hl; exact hl
      | some username =>
        rw [hu] at hl; dsimp only at hl
        by_cases h2 : ad.data.length > 5 * 1024 * 1024
        · rw [if_pos h2] at hl; exact hl
        rw [if_neg h2] at hl
        by_cases hx : rid = normRoomId rid0
        · subst hx
          rw [alookup_updRoom_self, hr] at hl
          cases hl
          rw [he] at hu
          exact absurd hu (by simp [alookup])
        · rw [alookup_updRoom_ne _ _ _ _ hx] at hl; exact hl
  | start_video_call sid rid0 ts =>
    simp only [stepSt, step, handle_start_video_call] at hl
    cases hr : alookup st (normRoomId rid0) with
    | none => rw [hr] at hl; exact hl
    | some r =>
      rw [hr] at hl; dsimp only at hl
      cases hu : alookup r.users sid with
      | none => rw [hu] at hl; exact hl
      | some username =>
        rw [hu] at hl; dsimp only at hl
        simp only [add_system_message, updRoom_updRoom] at hl
        by_cases hx : rid = normRoomId rid0
        · subst hx
          rw [alookup_updRoom_self, hr] at hl
          cases hl
          rw [he] at hu
          exact absurd hu (by simp [alookup])
        · rw [alookup_updRoom_ne _ _ _ _ hx] at hl; exact hl
  | join_video_call sid rid0 ts =>
    simp only [stepSt, step, handle_join_video_call] at hl
    cases hr : alookup st (normRoomId rid0) with
    | none => rw [hr] at hl; exact hl
    | some r =>
      rw [hr] at hl; dsimp only at hl
      cases hu : alookup r.users sid with
      | none => rw [hu] at hl; exact hl
      | some username =>
        rw [hu] at hl; dsimp only at hl
        simp only [add_system_message, updRoom_updRoom] at hl
        by_cases hx : rid = normRoomId rid0
        · subst hx
          rw [alookup_updRoom_self, hr] at hl
          cases hl
          rw [he] at hu
          exact absurd hu (by simp [alookup])
        · rw [alookup_updRoom_ne _ _ _ _ hx] at hl; exact hl
  | leave_video_call sid rid0 ts =>
    simp only [stepSt, step, handle_leave_video_call] at hl
    cases hr : alookup st (normRoomId rid0) with
    | none => rw [hr] at hl; exact hl
    | some r =>
      rw [hr] at hl; dsimp only at hl
      cases hu : alookup r.users sid with
      | none => rw [hu] at hl; exact hl
      | some username =>
        rw [hu] at hl; dsimp only at hl
        simp only [add_system_message, updRoom_updRoom] at hl
        by_cases hx : rid = normRoomId rid0
        · subst hx
          split at hl <;>
            simp only [updRoom_updRoom] at hl <;>
            rw [alookup_updRoom_self, hr] at hl <;>
            cases hl <;>
            rw [he] at hu <;>
            exact absurd hu (by simp [alookup])
        · split at hl <;>
            simp only [updRoom_updRoom] at hl <;>
            rw [alookup_updRoom_ne _ _ _ _ hx] at hl <;> exact hl

/-- C5 witness: a store holding a (previously created, still empty) room `E`
and a populated room `R`; a `send_message` to `R` keeps `E` exactly as it
was. -/
theorem C5_witness :
    notCreate (Op.send_message 1 "R" "hi" "09:00") = true ∧
    (akeys [("E", emptyRoom), ("R", soloRoom)]).Nodup ∧
    alookup (stepSt [("E", emptyRoom), ("R", soloRoom)]
      (Op.send_message 1 "R" "hi" "09:00")) "E" = some emptyRoom ∧
    emptyRoom.users = [] ∧
    alookup [("E", emptyRoom), ("R", soloRoom)] "E" = some emptyRoom :=
  ⟨by decide, by decide, by decide, by decide,
   C5_amended [("E", emptyRoom), ("R", soloRoom)] (Op.send_message 1 "R" "hi" "09:00")
     (by decide) (by decide) "E" emptyRoom (by decide) (by decide)⟩

/-! ## Claim C7: room deletion via leave_room or disconnect, fresh rejoin -/

theorem alookup_disconnectRoom_ne (sid : Sid) (ts : String) (st : Store) (rid0 x : String)
    (hx : x ≠ rid0) : alookup (disconnectRoom sid ts st rid0).1 x = alookup st x := by
  unfold disconnectRoom
  cases hr : alookup st rid0 with
  | none => rfl
  | some r =>
    dsimp only
    by_cases hin : sid ∈ r.video_call.participants <;>
        simp only [hin, ite_true, ite_false, add_system_message, updRoom_updRoom] <;>
        rw [updRoom_eq_aset hr] <;>
        split <;>
        split <;>
        first
        | rw [alookup_adel_ne _ _ _ hx, alookup_aset_ne _ _ _ _ hx]
        | rw [alookup_aset_ne _ _ _ _ hx]

theorem alookup_disconnectRoom_none (sid : Sid) (ts : String) (st : Store) (rid0 x : String)
    (h : alookup st x = none) : alookup (disconnectRoom sid ts st rid0).1 x = none := by
  by_cases hx : x = rid0
  · subst hx
    unfold disconnectRoom
    rw [h]
    exact h
  · rw [alookup_disconnectRoom_ne _ _ _ _ _ hx]
    exact h

/-- `disconnectRoom` on a room whose only member is the disconnecting
connection deletes the room from the store. -/
theorem disconnectRoom_deletes_solo (sid : Sid) (ts : String) (st : Store) (R name : String)
    (hnodup : (akeys st).Nodup) (ms : List Message) (vc : VideoCall)
    (hroom : alookup st R = some { users := [(sid, name)], messages := ms, video_call := vc }) :
    alookup (disconnectRoom sid ts st R).1 R = none := by
  have husers : alookup ([(sid, name)] : List (Sid × String)) sid = some name := by
    simp [alookup]
  have hdel : adel ([(sid, name)] : List (Sid × String)) sid = [] := by
    simp [adel]
  unfold disconnectRoom
  rw [hroom]
  dsimp only
  by_cases hin : sid ∈ vc.participants <;>
    simp only [hin, ite_true, ite_false, add_system_message, updRoom_updRoom] <;>
    rw [updRoom_eq_aset hroom] <;>
    simp only [husers, hdel, Option.isSome_some, ite_cond_true, if_true,
      alookup_aset_self, Option.getD_some, List.length_nil, ite_true] <;>
    exact alookup_adel_self_of_nodup
      (by rw [akeys_aset_of_mem _ _ _ (by simp [hroom])]; exact hnodup)

theorem disconnect_fold_none (sid : Sid) (ts : String) (l : List String) (st : Store)
    (R : String) (h : alookup st R = none) :
    alookup (l.foldl (fun s rid0 => (disconnectRoom sid ts s rid0).1) st) R = none := by
  induction l generalizing st with
  | nil => exact h
  | cons hd t ih =>
    rw [List.foldl_cons]
    exact ih _ (alookup_disconnectRoom_none _ _ _ _ _ h)

/-- Folding `disconnectRoom` over a room list containing the solo room
deletes it (later steps never recreate a room). -/
theorem disconnect_fold_deletes_solo (sid : Sid) (ts : String) (l : List String)
    (st : Store) (R name : String) (ms : List Message) (vc : VideoCall)
    (hnodup : (akeys st).Nodup) (hmem : R ∈ l)
    (hroom : alookup st R = some { users := [(sid, name)], messages := ms, video_call := vc }) :
    alookup (l.foldl (fun s rid0 => (disconnectRoom sid ts s rid0).1) st) R = none := by
  induction l generalizing st with
  | nil => cases hmem
  | cons hd t ih =>
    rw [List.foldl_cons]
    by_cases hhd : hd = R
    · subst hhd
      exact disconnect_fold_none sid ts t _ hd
        (disconnectRoom_deletes_solo sid ts st hd name hnodup ms vc hroom)
    · rcases List.mem_cons.mp hmem with h1 | h1
      · exact absurd h1.symm hhd
      · refine ih _ (hnodup.sublist (akeys_disconnectRoom_sublist sid ts st hd)) h1 ?_
        rw [alookup_disconnectRoom_ne _ _ _ _ _ (fun he => hhd he.symm)]
        exact hroom

/-- A room the connection belongs to is among the rooms `handle_disconnect`
iterates over (the model of SocketIO's `rooms()`). -/
theorem mem_user_rooms_of_lookup {st : Store} {sid : Sid} {R : String} {r : Room}
    (h : alookup st R = some r) (hu : (alookup r.users sid).isSome = true) :
    R ∈ (st.filter (fun p => (alookup p.2.users sid).isSome)).map Prod.fst := by
  have hm : (R, r) ∈ st.filter (fun p => (alookup p.2.users sid).isSome) :=
    List.mem_filter.mpr ⟨alookup_mem h, hu⟩
  exact List.mem_map.mpr ⟨(R, r), hm, rfl⟩

/-- Joining a code absent from the store creates a fresh room: the joiner's
`room_joined` snapshot carries an empty history and an inactive call, and
the resulting room holds exactly the joiner, the fresh join system message,
and an inactive call with no participants. -/
theorem join_room_fresh (st1 : Store) (sid2 : Sid) (R uname ts2 : String)
    (hlv : alookup st1 R = none) (hR : normRoomId R = R) (hRne : R ≠ "")
    (hu : strTrim uname ≠ "") :
    alookup (stepSt st1 (.join_room sid2 R uname ts2)) R =
      some { users := [(sid2, strTrim uname)],
             messages := [mkSystemMessage (strTrim uname ++ " has joined the room") ts2],
             video_call := { active := false, participants := [] } } ∧
    (Addr.conn sid2, Event.room_joined R (strTrim uname) [] [strTrim uname] false)
      ∈ (step st1 (.join_room sid2 R uname ts2)).2 := by
  constructor
  · simp only [stepSt, step, handle_join_room, hR, if_neg hRne, if_neg hu, hlv,
      Option.isNone_none, ite_true, alookup_aset_self, Option.getD_some,
      emptyRoom, avalues, List.map_nil, List.not_mem_nil, if_false,
      add_system_message, updRoom_updRoom, alookup_updRoom_self]
    simp [aset, mkSystemMessage]
  · simp only [stepSt, step, handle_join_room, hR, if_neg hRne, if_neg hu, hlv,
      Option.isNone_none, ite_true, alookup_aset_self, Option.getD_some,
      emptyRoom, avalues, List.map_nil, List.not_mem_nil, if_false]
    simp [aset]

/-- C7: when the sole member of a room leaves — via `leave_room` or via the
transport-triggered `disconnect` — the room id is deleted from the store; a
subsequent `join_room` with the same code succeeds by creating a fresh room:
the joiner's `room_joined` snapshot carries an empty history and an inactive
call, and the resulting room holds exactly the joiner, the fresh join system
message, and an inactive call with no participants.  (`hnodup` records that
store keys are unique, as they are for a Python dict.) -/
theorem C7_room_recreated_fresh (st : Store) (sid sid2 : Sid)
    (R name uname ts ts2 : String) (ms : List Message) (vc : VideoCall)
    (hnodup : (akeys st).Nodup)
    (hR : normRoomId R = R) (hRne : R ≠ "")
    (hroom : alookup st R = some { users := [(sid, name)], messages := ms, video_call := vc })
    (hu : strTrim uname ≠ "") :
    alookup (stepSt st (.leave_room sid R ts)) R = none ∧
    alookup (stepSt (stepSt st (.leave_room sid R ts)) (.join_room sid2 R uname ts2)) R =
      some { users := [(sid2, strTrim uname)],
             messages := [mkSystemMessage (strTrim uname ++ " has joined the room") ts2],
             video_call := { active := false, participants := [] } } ∧
    (Addr.conn sid2, Event.room_joined R (strTrim uname) [] [strTrim uname] false)
      ∈ (step (stepSt st (.leave_room sid R ts)) (.join_room sid2 R uname ts2)).2 ∧
    alookup (stepSt st (.disconnect sid ts)) R = none ∧
    alookup (stepSt (stepSt st (.disconnect sid ts)) (.join_room sid2 R uname ts2)) R =
      some { users := [(sid2, strTrim uname)],
             messages := [mkSystemMessage (strTrim uname ++ " has joined the room") ts2],
             video_call := { active := false, participants := [] } } ∧
    (Addr.conn sid2, Event.room_joined R (strTrim uname) [] [strTrim uname] false)
      ∈ (step (stepSt st (.disconnect sid ts)) (.join_room sid2 R uname ts2)).2 := by
  have hlv : alookup (stepSt st (.leave_room sid R ts)) R = none := by
    simp only [stepSt, step, handle_leave_room, hR, hroom]
    simp only [alookup, if_pos rfl]
    by_cases hin : sid ∈ vc.participants <;>
      simp only [hin, if_true, if_false, add_system_message, updRoom_updRoom,
        alookup_updRoom_self, hroom] <;>
    · simp only [adel, if_pos rfl, Option.map_some', Option.getD_some, List.length_nil,
        ite_true]
      apply alookup_adel_self_of_nodup
      simpa only [akeys_updRoom] using hnodup
  have hdc : alookup (stepSt st (.disconnect sid ts)) R = none := by
    rw [stepSt, step, handle_disconnect_state]
    exact disconnect_fold_deletes_solo sid ts _ st R name ms vc hnodup
      (mem_user_rooms_of_lookup hroom (by simp [alookup])) hroom
  have hj1 := join_room_fresh (stepSt st (.leave_room sid R ts)) sid2 R uname ts2
    hlv hR hRne hu
  have hj2 := join_room_fresh (stepSt st (.disconnect sid ts)) sid2 R uname ts2
    hdc hR hRne hu
  exact ⟨hlv, hj1.1, hj1.2, hdc, hj2.1, hj2.2⟩

/-- C7 witness: the sole member of the concrete one-room store leaves (once
via `leave_room`, once via `disconnect`), then a second connection rejoins
the same code. -/
theorem C7_witness :
    (akeys soloStore).Nodup ∧ normRoomId "R" = "R" ∧ "R" ≠ "" ∧
    alookup soloStore "R" = some { users := [(1, "alice")], messages := ([] : List Message),
                                   video_call := { active := false, participants := [] } } ∧
    strTrim " Bob " ≠ "" ∧
    (alookup (stepSt soloStore (.leave_room 1 "R" "09:05")) "R" = none ∧
     alookup (stepSt (stepSt soloStore (.leave_room 1 "R" "09:05"))
        (.join_room 2 "R" " Bob " "09:06")) "R" =
       some { users := [(2, strTrim " Bob ")],
              messages := [mkSystemMessage (strTrim " Bob " ++ " has joined the room") "09:06"],
              video_call := { active := false, participants := [] } } ∧
     (Addr.conn 2, Event.room_joined "R" (strTrim " Bob ") [] [strTrim " Bob "] false)
       ∈ (step (stepSt soloStore (.leave_room 1 "R" "09:05"))
           (.join_room 2 "R" " Bob " "09:06")).2 ∧
     alookup (stepSt soloStore (.disconnect 1 "09:05")) "R" = none ∧
     alookup (stepSt (stepSt soloStore (.disconnect 1 "09:05"))
        (.join_room 2 "R" " Bob " "09:06")) "R" =
       some { users := [(2, strTrim " Bob ")],
              messages := [mkSystemMessage (strTrim " Bob " ++ " has joined the room") "09:06"],
              video_call := { active := false, participants := [] } } ∧
     (Addr.conn 2, Event.room_joined "R" (strTrim " Bob ") [] [strTrim " Bob "] false)
       ∈ (step (stepSt soloStore (.disconnect 1 "09:05"))
           (.join_room 2 "R" " Bob " "09:06")).2) :=
  ⟨by decide, by decide, by decide, by decide, by decide,
   C7_room_recreated_fresh soloStore 1 2 "R" "alice" " Bob " "09:05" "09:06" []
     { active := false, participants := [] }
     (by decide) (by decide) (by decide) (by decide) (by decide)⟩

/-! ## Claim C8: case-insensitive uniqueness of display names -/

theorem avalues_cons {α β : Type} (a : α) (b : β) (t : List (α × β)) :
    avalues ((a, b) :: t) = b :: avalues t := rfl

theorem avalues_aset_cases {α β : Type} [DecidableEq α] (l : List (α × β)) (k : α) (v : β) :
    ∀ x ∈ avalues (aset l k v), x = v ∨ x ∈ avalues l := by
  induction l with
  | nil =>
    intro x hx
    simp [aset, avalues] at hx
    exact Or.inl hx
  | cons hd t ih =>
    obtain ⟨a, b⟩ := hd
    intro x hx
    by_cases ha : a = k
    · subst ha
      rw [aset, if_pos rfl, avalues_cons] at hx
      rcases List.mem_cons.mp hx with h1 | h1
      · exact Or.inl h1
      · exact Or.inr (by rw [avalues_cons]; exact List.mem_cons_of_mem _ h1)
    · rw [aset, if_neg ha, avalues_cons] at hx
      rcases List.mem_cons.mp hx with h1 | h1
      · exact Or.inr (by rw [h1, avalues_cons]; exact List.mem_cons_self _ _)
      · rcases ih x h1 with h2 | h2
        · exact Or.inl h2
        · exact Or.inr (by rw [avalues_cons]; exact List.mem_cons_of_mem _ h2)

theorem pairwise_avalues_aset {α β : Type} [DecidableEq α] {R : β → β → Prop}
    {l : List (α × β)} {k : α} {v : β}
    (hp : (avalues l).Pairwise R) (hv : ∀ x ∈ avalues l, R v x ∧ R x v) :
    (avalues (aset l k v)).Pairwise R := by
  induction l with
  | nil => simp [aset, avalues]
  | cons hd t ih =>
    obtain ⟨a, b⟩ := hd
    rw [avalues_cons, List.pairwise_cons] at hp
    by_cases ha : a = k
    · subst ha
      rw [aset, if_pos rfl, avalues_cons, List.pairwise_cons]
      exact ⟨fun x hx => (hv x (by rw [avalues_cons]; exact List.mem_cons_of_mem _ hx)).1,
        hp.2⟩
    · rw [aset, if_neg ha, avalues_cons, List.pairwise_cons]
      constructor
      · intro x hx
        rcases avalues_aset_cases t k v x hx with h1 | h1
        · rw [h1]
          exact (hv b (by rw [avalues_cons]; exact List.mem_cons_self _ _)).2
        · exact hp.1 x h1
      · exact ih hp.2
          (fun x hx => hv x (by rw [avalues_cons]; exact List.mem_cons_of_mem _ hx))

theorem avalues_adel_sublist {α β : Type} [DecidableEq α] (l : List (α × β)) (k : α) :
    (avalues (adel l k)).Sublist (avalues l) := by
  induction l with
  | nil => simp [adel, avalues]
  | cons hd t ih =>
    obtain ⟨a, b⟩ := hd
    by_cases ha : a = k
    · rw [adel, if_pos ha, avalues_cons]
      exact List.sublist_cons_of_sublist b (List.Sublist.refl _)
    · rw [adel, if_neg ha, avalues_cons, avalues_cons]
      exact List.Sublist.cons₂ b ih

/-- The per-room name invariant: display names pairwise case-insensitively
distinct. -/
def namesRoom (r : Room) : Prop :=
  (avalues r.users).Pairwise (fun a b => strLower a ≠ strLower b)

theorem NamesInv_iff (st : Store) : NamesInv st ↔ ∀ p ∈ st, namesRoom p.2 := Iff.rfl

theorem NamesInv_aset (st : Store) (rid : String) (r : Room)
    (hinv : NamesInv st) (hr : namesRoom r) : NamesInv (aset st rid r) := by
  intro p hp
  rcases mem_aset hp with h | h
  · rw [h]; exact hr
  · exact hinv p h

theorem NamesInv_updRoom (st : Store) (rid : String) (f : Room → Room)
    (hinv : NamesInv st)
    (hf : ∀ r, alookup st rid = some r → namesRoom r → namesRoom (f r)) :
    NamesInv (updRoom st rid f) := by
  intro p hp
  rcases mem_updRoom hp with h | ⟨r, hl, he⟩
  · exact hinv p h
  · rw [he]; exact hf r hl (hinv (rid, r) (alookup_mem hl))

theorem NamesInv_adel (st : Store) (rid : String) (hinv : NamesInv st) :
    NamesInv (adel st rid) := fun p hp => hinv p (mem_adel hp)

theorem NamesInv_add_system_message (st : Store) (rid t ts : String) (hinv : NamesInv st) :
    NamesInv (add_system_message st rid t ts) :=
  NamesInv_updRoom _ _ _ hinv (fun _ _ h => h)

theorem namesRoom_emptyRoom : namesRoom emptyRoom := by
  simp [namesRoom, emptyRoom, avalues]

theorem namesRoom_users_eq {r r' : Room} (h : r'.users = r.users) (hr : namesRoom r) :
    namesRoom r' := by
  unfold namesRoom
  rw [h]
  exact hr

theorem namesRoom_adel_users {r : Room} (sid : Sid) (hr : namesRoom r)
    {r' : Room} (h : r'.users = adel r.users sid) : namesRoom r' := by
  unfold namesRoom
  rw [h]
  exact List.Pairwise.sublist (avalues_adel_sublist _ _) hr

/-- `handle_join_room`'s uniqueness guard establishes the `aset` obligation. -/
theorem namesRoom_join {r : Room} (sid : Sid) (uname : String)
    (hguard : strLower uname ∉ (avalues r.users).map strLower) (hr : namesRoom r)
    {r' : Room} (h : r'.users = aset r.users sid uname) : namesRoom r' := by
  unfold namesRoom
  rw [h]
  apply pairwise_avalues_aset hr
  intro x hx
  have hne : strLower uname ≠ strLower x := by
    intro he
    exact hguard (he ▸ List.mem_map_of_mem strLower hx)
  exact ⟨hne, fun he => hne he.symm⟩

/-- One operation preserves the name invariant. -/
theorem NamesInv_step (st : Store) (op : Op) (hinv : NamesInv st) :
    NamesInv (stepSt st op) := by
  cases op with
  | create_room sid rid =>
    exact NamesInv_aset st rid emptyRoom hinv namesRoom_emptyRoom
  | join_room sid rid0 u ts =>
    simp only [stepSt, step, handle_join_room]
    by_cases h1 : normRoomId rid0 = ""
    · rw [if_pos h1]; exact hinv
    rw [if_neg h1]
    by_cases h2 : strTrim u = ""
    · rw [if_pos h2]; exact hinv
    rw [if_neg h2]
    cases hr : alookup st (normRoomId rid0) with
    | none =>
      simp only [hr, Option.isNone_none, ite_cond_true, if_true, alookup_aset_self,
        Option.getD_some]
      by_cases h3 : strLower (strTrim u) ∈ (avalues emptyRoom.users).map strLower
      · rw [if_pos h3]
        exact NamesInv_aset st _ emptyRoom hinv namesRoom_emptyRoom
      · rw [if_neg h3]
        apply NamesInv_add_system_message
        apply NamesInv_updRoom _ _ _
          (NamesInv_aset st _ emptyRoom hinv namesRoom_emptyRoom)
        intro r0 hl0 hn0
        rw [alookup_aset_self] at hl0
        cases hl0
        exact namesRoom_join sid (strTrim u) h3 hn0 rfl
    | some r =>
      simp only [hr, Option.isNone_some, ite_cond_false, Option.getD_some]
      by_cases h3 : strLower (strTrim u) ∈ (avalues r.users).map strLower
      · rw [if_pos h3]; exact hinv
      · rw [if_neg h3]
        apply NamesInv_add_system_message
        apply NamesInv_updRoom _ _ _ hinv
        intro r0 hl0 hn0
        rw [hr] at hl0
        cases hl0
        exact namesRoom_join sid (strTrim u) h3 hn0 rfl
  | leave_room sid rid0 ts =>
    simp only [stepSt, step, handle_leave_room]
    cases hr : alookup st (normRoomId rid0) <;> dsimp only
    · exact hinv
    · rename_i r
      cases hu : alookup r.users sid <;> dsimp only
      · exact hinv
      · rename_i username
        by_cases hin : sid ∈ r.video_call.participants <;>
          simp only [hin, ite_true, ite_false, add_system_message, updRoom_updRoom] <;>
          split <;>
          first
          | (apply NamesInv_adel
             apply NamesInv_updRoom _ _ _ hinv
             intro r0 _ hn0
             exact namesRoom_adel_users sid hn0 rfl)
          | (apply NamesInv_updRoom _ _ _ hinv
             intro r0 _ hn0
             exact namesRoom_adel_users sid hn0 rfl)
  | disconnect sid ts =>
    rw [stepSt, step, handle_disconnect_state]
    generalize (st.filter (fun p => (alookup p.2.users sid).isSome)).map Prod.fst = l
    induction l generalizing st with
    | nil => exact hinv
    | cons hd t ih =>
      rw [List.foldl_cons]
      apply ih
      unfold disconnectRoom
      cases hr : alookup st hd <;> dsimp only
      · exact hinv
      · rename_i r
        by_cases hin : sid ∈ r.video_call.participants <;>
          simp only [hin, ite_true, ite_false, add_system_message, updRoom_updRoom] <;>
          split <;>
          first
          | (apply NamesInv_adel
             apply NamesInv_updRoom _ _ _ hinv
             intro r0 _ hn0
             unfold namesRoom
             split <;> dsimp only
             · exact List.Pairwise.sublist (avalues_adel_sublist _ _) hn0
             · exact hn0)
          | (apply NamesInv_updRoom _ _ _ hinv
             intro r0 _ hn0
             unfold namesRoom
             split <;> dsimp only
             · exact List.Pairwise.sublist (avalues_adel_sublist _ _) hn0
             · exact hn0)
  | send_message sid rid0 m ts =>
    simp only [stepSt, step, handle_send_message]
    by_cases h1 : strTrim m = ""
    · rw [if_pos h1]; exact hinv
    · rw [if_neg h1]
      cases hr : alookup st (normRoomId rid0) <;> dsimp only
      · exact hinv
      · rename_i r
        cases hu : alookup r.users sid <;> dsimp only
        · exact hinv
        · exact NamesInv_updRoom _ _ _ hinv (fun r0 _ hn0 => namesRoom_users_eq rfl hn0)
  | send_voice_note sid rid0 ad dur ts =>
    simp only [stepSt, step, handle_send_voice_note]
    by_cases h1 : ad = ""
    · rw [if_pos h1]; exact hinv
    · rw [if_neg h1]
      cases hr : alookup st (normRoomId rid0) <;> dsimp only
      · exact hinv
      · rename_i r
        cases hu : alookup r.users sid <;> dsimp only
        · exact hinv
        · by_cases h2 : ad.data.length > 5 * 1024 * 1024
          · rw [if_pos h2]; exact hinv
          · rw [if_neg h2]
            exact NamesInv_updRoom _ _ _ hinv (fun r0 _ hn0 => namesRoom_users_eq rfl hn0)
  | start_video_call sid rid0 ts =>
    simp only [stepSt, step, handle_start_video_call]
    cases hr : alookup st (normRoomId rid0) <;> dsimp only
    · exact hinv
    · rename_i r
      cases hu : alookup r.users sid <;> dsimp only
      · exact hinv
      · apply NamesInv_add_system_message
        exact NamesInv_updRoom _ _ _ hinv (fun r0 _ hn0 => namesRoom_users_eq rfl hn0)
  | join_video_call sid rid0 ts =>
    simp only [stepSt, step, handle_join_video_call]
    cases hr : alookup st (normRoomId rid0) <;> dsimp only
    · exact hinv
    · rename_i r
      cases hu : alookup r.users sid <;> dsimp only
      · exact hinv
      · apply NamesInv_add_system_message
        exact NamesInv_updRoom _ _ _ hinv (fun r0 _ hn0 => namesRoom_users_eq rfl hn0)
  | leave_video_call sid rid0 ts =>
    simp only [stepSt, step, handle_leave_video_call]
    cases hr : alookup st (normRoomId rid0) <;> dsimp only
    · exact hinv
    · rename_i r
      cases hu : alookup r.users sid <;> dsimp only
      · exact hinv
      · simp only [add_system_message]
        split <;>
          simp only [updRoom_updRoom] <;>
          exact NamesInv_updRoom _ _ _ hinv (fun r0 _ hn0 => namesRoom_users_eq rfl hn0)

/-- C8: after every operation, display names of a room's current members are
pairwise distinct under case-insensitive comparison; and a `join_room` whose
trimmed username case-insensitively collides with an existing member's name
fails with the name-taken error sent to the joiner only, leaving the store —
hence the room's membership, history and call state — unchanged. -/
theorem C8_names_unique :
    (∀ st : Store, Reachable st → NamesInv st) ∧
    (∀ (st : Store) (sid : Sid) (rid u ts : String) (r : Room),
      alookup st (normRoomId rid) = some r →
      normRoomId rid ≠ "" → strTrim u ≠ "" →
      strLower (strTrim u) ∈ (avalues r.users).map strLower →
      step st (.join_room sid rid u ts) =
        (st, [(.conn sid, .error "Username already taken in this room")])) := by
  constructor
  · intro st h
    induction h with
    | init => intro p hp; cases hp
    | next hr _ ih => exact NamesInv_step _ _ ih
  · intro st sid rid u ts r hr hrne hune h3
    simp only [step, handle_join_room, if_neg hrne, if_neg hune, hr, Option.isNone_some,
      ite_cond_false, Option.getD_some]
    rw [if_pos (by simpa [avalues] using h3)]

/-- C8 witness: after "bob" joins room `R`, a join attempt as " BOB " fails
with the name-taken error and the store is unchanged; the reachable store
satisfies the invariant. -/
theorem C8_witness :
    NamesInv (stepSt [] (Op.join_room 1 "R" "bob" "09:00")) ∧
    alookup (stepSt [] (Op.join_room 1 "R" "bob" "09:00")) (normRoomId "R") ≠ none ∧
    strLower (strTrim " BOB ") ∈ ["bob"].map strLower ∧
    step (stepSt [] (Op.join_room 1 "R" "bob" "09:00")) (.join_room 2 "R" " BOB " "09:01") =
      (stepSt [] (Op.join_room 1 "R" "bob" "09:00"),
       [(.conn 2, .error "Username already taken in this room")]) := by
  refine ⟨C8_names_unique.1 _ (Reachable.next Reachable.init (by decide)), by decide,
    by decide, ?_⟩
  have h := C8_names_unique.2 (stepSt [] (Op.join_room 1 "R" "bob" "09:00")) 2 "R" " BOB "
    "09:01" ((alookup (stepSt [] (Op.join_room 1 "R" "bob" "09:00")) "R").getD emptyRoom)
    (by decide) (by decide) (by decide) (by decide)
  exact h

/-! ## Claim C6 (amended): call participants under guarded reachability -/

theorem alookup_aset_isSome {α β : Type} [DecidableEq α] (l : List (α × β)) (k x : α) (v : β)
    (h : (alookup l x).isSome = true) : (alookup (aset l k v) x).isSome = true := by
  by_cases hx : x = k
  · subst hx
    rw [alookup_aset_self]
    rfl
  · rw [alookup_aset_ne _ _ _ _ hx]
    exact h

theorem partInvRoom_emptyRoom : partInvRoom emptyRoom := by
  constructor <;> simp [emptyRoom]

theorem PartInv_aset (st : Store) (rid : String) (r : Room)
    (hinv : PartInv st) (hr : partInvRoom r) : PartInv (aset st rid r) := by
  intro p hp
  rcases mem_aset hp with h | h
  · rw [h]; exact hr
  · exact hinv p h

theorem PartInv_updRoom (st : Store) (rid : String) (f : Room → Room)
    (hinv : PartInv st)
    (hf : ∀ r, alookup st rid = some r → partInvRoom r → partInvRoom (f r)) :
    PartInv (updRoom st rid f) := by
  intro p hp
  rcases mem_updRoom hp with h | ⟨r, hl, he⟩
  · exact hinv p h
  · rw [he]; exact hf r hl (hinv (rid, r) (alookup_mem hl))

theorem PartInv_adel (st : Store) (rid : String) (hinv : PartInv st) :
    PartInv (adel st rid) := fun p hp => hinv p (mem_adel hp)

theorem PartInv_add_system_message (st : Store) (rid t ts : String) (hinv : PartInv st) :
    PartInv (add_system_message st rid t ts) :=
  PartInv_updRoom _ _ _ hinv (fun _ _ h => h)

/-- Removing a member prunes them from the call first, so erasing the sid
from `participants` and deleting it from `users` preserves the room
invariant.  The `¬(sid ∈ ...)`-style hypothesis handles the case where the
member was not in the call and only `users` shrinks. -/
theorem partInvRoom_remove {r : Room} (sid : Sid) (hp : partInvRoom r)
    {r' : Room} (hu : r'.users = adel r.users sid)
    (hv : r'.video_call.participants = r.video_call.participants.erase sid) :
    partInvRoom r' := by
  obtain ⟨hnd, hsub⟩ := hp
  constructor
  · rw [hv]; exact hnd.erase sid
  · intro x hx
    rw [hv] at hx
    have hx' := (List.Nodup.mem_erase_iff hnd).mp hx
    rw [hu, alookup_adel_ne _ _ _ hx'.1]
    exact hsub x hx'.2

theorem partInvRoom_users_only {r : Room} (sid : Sid) (hp : partInvRoom r)
    (hnotin : sid ∉ r.video_call.participants)
    {r' : Room} (hu : r'.users = adel r.users sid)
    (hv : r'.video_call.participants = r.video_call.participants) :
    partInvRoom r' := by
  obtain ⟨hnd, hsub⟩ := hp
  constructor
  · rw [hv]; exact hnd
  · intro x hx
    rw [hv] at hx
    have hxs : x ≠ sid := fun he => hnotin (he ▸ hx)
    rw [hu, alookup_adel_ne _ _ _ hxs]
    exact hsub x hx

/-- Erasing a participant while keeping `users` preserves the invariant. -/
theorem partInvRoom_erase_only {r : Room} (sid : Sid) (hp : partInvRoom r)
    {r' : Room} (hu : r'.users = r.users)
    (hv : r'.video_call.participants = r.video_call.participants.erase sid) :
    partInvRoom r' := by
  obtain ⟨hnd, hsub⟩ := hp
  constructor
  · rw [hv]; exact hnd.erase sid
  · intro x hx
    rw [hv] at hx
    rw [hu]
    exact hsub x (List.mem_of_mem_erase hx)

theorem partInvRoom_same {r : Room} (hp : partInvRoom r)
    {r' : Room} (hu : r'.users = r.users)
    (hv : r'.video_call.participants = r.video_call.participants) :
    partInvRoom r' := by
  obtain ⟨hnd, hsub⟩ := hp
  constructor
  · rw [hv]; exact hnd
  · intro x hx
    rw [hv] at hx
    rw [hu]
    exact hsub x hx

/-- Appending a caller who is a member and not yet a participant preserves
the room invariant (the `start_video_call`/`join_video_call` shape). -/
theorem partInvRoom_append {r : Room} (sid : Sid) (hp : partInvRoom r)
    (hnotin : sid ∉ r.video_call.participants)
    (hmem : (alookup r.users sid).isSome = true)
    {r' : Room} (hu : r'.users = r.users)
    (hv : r'.video_call.participants = r.video_call.participants ++ [sid]) :
    partInvRoom r' := by
  obtain ⟨hnd, hsub⟩ := hp
  constructor
  · rw [hv]
    simp [List.nodup_append, hnd, List.disjoint_singleton, hnotin]
  · intro x hx
    rw [hv] at hx
    rw [hu]
    rcases List.mem_append.mp hx with h1 | h1
    · exact hsub x h1
    · rw [List.mem_singleton.mp h1]
      exact hmem

/-- One safe operation preserves the participant invariant. -/
theorem PartInv_step (st : Store) (op : Op) (hsafe : safeStart st op = true)
    (hinv : PartInv st) : PartInv (stepSt st op) := by
  cases op with
  | create_room sid rid =>
    exact PartInv_aset st rid emptyRoom hinv partInvRoom_emptyRoom
  | join_room sid rid0 u ts =>
    simp only [stepSt, step, handle_join_room]
    by_cases h1 : normRoomId rid0 = ""
    · rw [if_pos h1]; exact hinv
    rw [if_neg h1]
    by_cases h2 : strTrim u = ""
    · rw [if_pos h2]; exact hinv
    rw [if_neg h2]
    cases hr : alookup st (normRoomId rid0) with
    | none =>
      simp only [hr, Option.isNone_none, ite_cond_true, if_true, alookup_aset_self,
        Option.getD_some]
      split
      · exact PartInv_aset st _ emptyRoom hinv partInvRoom_emptyRoom
      · apply PartInv_add_system_message
        apply PartInv_updRoom _ _ _
          (PartInv_aset st _ emptyRoom hinv partInvRoom_emptyRoom)
        intro r0 hl0 hp0
        constructor
        · exact hp0.1
        · intro x hx
          exact alookup_aset_isSome _ _ _ _ (hp0.2 x hx)
    | some r =>
      simp only [hr, Option.isNone_some, ite_cond_false, Option.getD_some]
      split
      · exact hinv
      · apply PartInv_add_system_message
        apply PartInv_updRoom _ _ _ hinv
        intro r0 hl0 hp0
        constructor
        · exact hp0.1
        · intro x hx
          exact alookup_aset_isSome _ _ _ _ (hp0.2 x hx)
  | leave_room sid rid0 ts =>
    simp only [stepSt, step, handle_leave_room]
    cases hr : alookup st (normRoomId rid0) <;> dsimp only
    · exact hinv
    · rename_i r
      cases hu : alookup r.users sid <;> dsimp only
      · exact hinv
      · rename_i username
        by_cases hin : sid ∈ r.video_call.participants
        · simp only [hin, ite_true, add_system_message, updRoom_updRoom]
          split
          · apply PartInv_adel
            apply PartInv_updRoom _ _ _ hinv
            intro r0 hl0 hp0
            rw [hr] at hl0
            cases hl0
            exact partInvRoom_remove sid hp0 rfl rfl
          · apply PartInv_updRoom _ _ _ hinv
            intro r0 hl0 hp0
            rw [hr] at hl0
            cases hl0
            exact partInvRoom_remove sid hp0 rfl rfl
        · simp only [hin, ite_false, add_system_message, updRoom_updRoom]
          split
          · apply PartInv_adel
            apply PartInv_updRoom _ _ _ hinv
            intro r0 hl0 hp0
            rw [hr] at hl0
            cases hl0
            exact partInvRoom_users_only sid hp0 hin rfl rfl
          · apply PartInv_updRoom _ _ _ hinv
            intro r0 hl0 hp0
            rw [hr] at hl0
            cases hl0
            exact partInvRoom_users_only sid hp0 hin rfl rfl
  | disconnect sid ts =>
    rw [stepSt, step, handle_disconnect_state]
    generalize (st.filter (fun p => (alookup p.2.users sid).isSome)).map Prod.fst = l
    induction l generalizing st with
    | nil => exact hinv
    | cons hd t ih =>
      rw [List.foldl_cons]
      refine ih _ ?_ rfl
      unfold disconnectRoom
      cases hr : alookup st hd <;> dsimp only
      · exact hinv
      · rename_i r
        by_cases hin : sid ∈ r.video_call.participants
        · simp only [hin, ite_true, add_system_message, updRoom_updRoom]
          split
          · apply PartInv_adel
            apply PartInv_updRoom _ _ _ hinv
            intro r0 hl0 hp0
            rw [hr] at hl0
            cases hl0
            split
            · exact partInvRoom_remove sid hp0 rfl rfl
            · exact partInvRoom_erase_only sid hp0 rfl rfl
          · apply PartInv_updRoom _ _ _ hinv
            intro r0 hl0 hp0
            rw [hr] at hl0
            cases hl0
            split
            · exact partInvRoom_remove sid hp0 rfl rfl
            · exact partInvRoom_erase_only sid hp0 rfl rfl
        · simp only [hin, ite_false, add_system_message, updRoom_updRoom]
          split
          · apply PartInv_adel
            apply PartInv_updRoom _ _ _ hinv
            intro r0 hl0 hp0
            rw [hr] at hl0
            cases hl0
            split
            · exact partInvRoom_users_only sid hp0 hin rfl rfl
            · exact partInvRoom_same hp0 rfl rfl
          · apply PartInv_updRoom _ _ _ hinv
            intro r0 hl0 hp0
            rw [hr] at hl0
            cases hl0
            split
            · exact partInvRoom_users_only sid hp0 hin rfl rfl
            · exact partInvRoom_same hp0 rfl rfl
  | send_message sid rid0 m ts =>
    simp only [stepSt, step, handle_send_message]
    by_cases h1 : strTrim m = ""
    · rw [if_pos h1]; exact hinv
    · rw [if_neg h1]
      cases hr : alookup st (normRoomId rid0) <;> dsimp only
      · exact hinv
      · rename_i r
        cases hu : alookup r.users sid <;> dsimp only
        · exact hinv
        · exact PartInv_updRoom _ _ _ hinv (fun r0 _ hp0 => partInvRoom_same hp0 rfl rfl)
  | send_voice_note sid rid0 ad dur ts =>
    simp only [stepSt, step, handle_send_voice_note]
    by_cases h1 : ad = ""
    · rw [if_pos h1]; exact hinv
    · rw [if_neg h1]
      cases hr : alookup st (normRoomId rid0) <;> dsimp only
      · exact hinv
      · rename_i r
        cases hu : alookup r.users sid <;> dsimp only
        · exact hinv
        · by_cases h2 : ad.data.length > 5 * 1024 * 1024
          · rw [if_pos h2]; exact hinv
          · rw [if_neg h2]
            exact PartInv_updRoom _ _ _ hinv (fun r0 _ hp0 => partInvRoom_same hp0 rfl rfl)
  | start_video_call sid rid0 ts =>
    simp only [stepSt, step, handle_start_video_call]
    cases hr : alookup st (normRoomId rid0) <;> dsimp only
    · exact hinv
    · rename_i r
      cases hu : alookup r.users sid <;> dsimp only
      · exact hinv
      · rename_i username
        simp only [safeStart, hr] at hsafe
        have hnotin : sid ∉ r.video_call.participants := of_decide_eq_true hsafe
        apply PartInv_add_system_message
        apply PartInv_updRoom _ _ _ hinv
        intro r0 hl0 hp0
        rw [hr] at hl0
        cases hl0
        exact partInvRoom_append sid hp0 hnotin (by simp [hu]) rfl rfl
  | join_video_call sid rid0 ts =>
    simp only [stepSt, step, handle_join_video_call]
    cases hr : alookup st (normRoomId rid0) <;> dsimp only
    · exact hinv
    · rename_i r
      cases hu : alookup r.users sid <;> dsimp only
      · exact hinv
      · rename_i username
        apply PartInv_add_system_message
        apply PartInv_updRoom _ _ _ hinv
        intro r0 hl0 hp0
        rw [hr] at hl0
        cases hl0
        by_cases hnotin : sid ∈ r.video_call.participants
        · exact partInvRoom_same hp0 rfl (by simp [hnotin])
        · exact partInvRoom_append sid hp0 hnotin (by simp [hu]) rfl (by simp [hnotin])
  | leave_video_call sid rid0 ts =>
    simp only [stepSt, step, handle_leave_video_call]
    cases hr : alookup st (normRoomId rid0) <;> dsimp only
    · exact hinv
    · rename_i r
      cases hu : alookup r.users sid <;> dsimp only
      · exact hinv
      · simp only [add_system_message]
        split
        · simp only [updRoom_updRoom]
          apply PartInv_updRoom _ _ _ hinv
          intro r0 hl0 hp0
          rw [hr] at hl0
          cases hl0
          exact partInvRoom_erase_only sid hp0 rfl rfl
        · simp only [updRoom_updRoom]
          apply PartInv_updRoom _ _ _ hinv
          intro r0 hl0 hp0
          rw [hr] at hl0
          cases hl0
          exact partInvRoom_erase_only sid hp0 rfl rfl

/-- C6 amended: in every execution from the empty store in which
`start_video_call` is never invoked by a connection already in that room's
call participants (`ReachableSafe`), every room's `participants` list is
duplicate-free and a subset of the room's member keys after every operation.
(Unrestricted, `start_video_call` appends its caller unconditionally, so a
second start duplicates the id — the counterexample — after which a
`leave_room` removes only one copy and the subset property can break too.) -/
theorem C6_amended (st : Store) (h : ReachableSafe st) : PartInv st := by
  induction h with
  | init => intro p hp; cases hp
  | next hr hwf hsafe ih => exact PartInv_step _ _ hsafe ih

/-- C6 witness: a safe trace — join, start, join the call — yields a store
satisfying the participant invariant. -/
theorem C6_witness :
    ReachableSafe (stepSt (stepSt (stepSt [] (Op.join_room 1 "R" "alice" "09:00"))
      (Op.start_video_call 1 "R" "09:01")) (Op.join_video_call 1 "R" "09:02")) ∧
    PartInv (stepSt (stepSt (stepSt [] (Op.join_room 1 "R" "alice" "09:00"))
      (Op.start_video_call 1 "R" "09:01")) (Op.join_video_call 1 "R" "09:02")) := by
  have h : ReachableSafe (stepSt (stepSt (stepSt [] (Op.join_room 1 "R" "alice" "09:00"))
      (Op.start_video_call 1 "R" "09:01")) (Op.join_video_call 1 "R" "09:02")) :=
    ReachableSafe.next (ReachableSafe.next (ReachableSafe.next ReachableSafe.init
      (by decide) (by decide)) (by decide) (by decide)) (by decide) (by decide)
  exact ⟨h, C6_amended _ h⟩

/-! ## Claim C2 (amended): broadcasts versus history appends -/

theorem newMessagesTo_append (a b : List Out) (rid : String) :
    newMessagesTo (a ++ b) rid = newMessagesTo a rid ++ newMessagesTo b rid := by
  simp [newMessagesTo]

theorem hist_eq_of_lookup {st : Store} {rid : String} {r : Room}
    (h : alookup st rid = some r) : histOf st rid = r.messages := by
  simp [histOf, h]

theorem histOf_none {st : Store} {rid : String} (h : alookup st rid = none) :
    histOf st rid = [] := by
  simp [histOf, h]

/-- `disconnectRoom` emits no `new_message` event. -/
theorem newMessagesTo_disconnectRoom (sid : Sid) (ts : String) (st : Store)
    (rid0 rid : String) : newMessagesTo (disconnectRoom sid ts st rid0).2 rid = [] := by
  unfold disconnectRoom
  cases hr : alookup st rid0 <;> dsimp only
  · rfl
  · rename_i r
    by_cases hin : sid ∈ r.video_call.participants <;>
      simp [hin, newMessagesTo]

/-- `handle_disconnect` emits no `new_message` event. -/
theorem newMessagesTo_handle_disconnect (st : Store) (sid : Sid) (ts rid : String) :
    newMessagesTo (handle_disconnect st sid ts).2 rid = [] := by
  unfold handle_disconnect
  generalize (st.filter (fun p => (alookup p.2.users sid).isSome)).map Prod.fst = l
  suffices h : ∀ (acc : Store × List Out), newMessagesTo acc.2 rid = [] →
      newMessagesTo
        (l.foldl (fun acc rid0 =>
          ((disconnectRoom sid ts acc.1 rid0).1,
           acc.2 ++ (disconnectRoom sid ts acc.1 rid0).2)) acc).2 rid = [] by
    exact h (st, []) rfl
  induction l with
  | nil => intro acc hacc; exact hacc
  | cons hd t ih =>
    intro acc hacc
    rw [List.foldl_cons]
    exact ih _ (by rw [newMessagesTo_append, hacc, newMessagesTo_disconnectRoom]; rfl)

/-- A `disconnectRoom` step only ever appends to a surviving room's history. -/
theorem disconnectRoom_hist_extend (sid : Sid) (ts : String) (st : Store) (rid0 : String)
    (hnodup : (akeys st).Nodup) (x : String) (r' : Room)
    (hl : alookup (disconnectRoom sid ts st rid0).1 x = some r') :
    ∃ r0 d, alookup st x = some r0 ∧ r'.messages = r0.messages ++ d := by
  unfold disconnectRoom at hl
  cases hr : alookup st rid0 with
  | none =>
    rw [hr] at hl
    exact ⟨r', [], hl, by simp⟩
  | some r =>
    rw [hr] at hl
    dsimp only at hl
    by_cases hin : sid ∈ r.video_call.participants <;>
      simp only [hin, ite_true, ite_false, add_system_message, updRoom_updRoom] at hl <;>
      rw [updRoom_eq_aset hr] at hl <;>
      split at hl <;>
      split at hl <;>
      first
      | (by_cases hx : x = rid0
         · subst hx
           rw [alookup_adel_self_of_nodup
             (by rw [akeys_aset_of_mem _ _ _ (by simp [hr])]; exact hnodup)] at hl
           exact absurd hl (by simp)
         · rw [alookup_adel_ne _ _ _ hx, alookup_aset_ne _ _ _ _ hx] at hl
           exact ⟨r', [], hl, by simp⟩)
      | (by_cases hx : x = rid0
         · subst hx
           rw [alookup_aset_self] at hl
           cases hl
           exact ⟨r, [mkSystemMessage ((alookup r.users sid).getD "Unknown User"
             ++ " has left the room") ts], hr, rfl⟩
         · rw [alookup_aset_ne _ _ _ _ hx] at hl
           exact ⟨r', [], hl, by simp⟩)

/-- The fold of `disconnectRoom` steps only ever appends to a surviving
room's history. -/
theorem disconnect_fold_hist_extend (sid : Sid) (ts : String) (l : List String)
    (st : Store) (hnodup : (akeys st).Nodup) (x : String) (r' : Room)
    (hl : alookup (l.foldl (fun s rid0 => (disconnectRoom sid ts s rid0).1) st) x = some r') :
    ∃ r0 d, alookup st x = some r0 ∧ r'.messages = r0.messages ++ d := by
  induction l generalizing st with
  | nil => exact ⟨r', [], hl, by simp⟩
  | cons hd t ih =>
    rw [List.foldl_cons] at hl
    have hnodup2 : (akeys (disconnectRoom sid ts st hd).1).Nodup :=
      hnodup.sublist (akeys_disconnectRoom_sublist sid ts st hd)
    obtain ⟨r1, d1, hl1, he1⟩ := ih _ hnodup2 hl
    obtain ⟨r0, d0, hl0, he0⟩ := disconnectRoom_hist_extend sid ts st hd hnodup x r1 hl1
    exact ⟨r0, d0 ++ d1, hl0, by rw [he1, he0, List.append_assoc]⟩

/-- C2 amended: history is append-only, and every `new_message` event a step
broadcasts to a room carries, in order, messages appended to that room's
history during that same step — the broadcast stream is a sublist of the
history growth.  (The converse of the original claim fails: the system
messages recorded on room join, room leave, call start and call end are
appended to history but broadcast as `user_joined`/`user_left`/
`video_call_started`/`video_call_ended`, never as `new_message` — the
counterexample — so replaying history produces a supersequence of the
`new_message` stream, not the exact sequence.)  `hnodup` records that store
keys are unique, as they are for a Python dict. -/
theorem C2_amended (st : Store) (op : Op) (hwf : wfOp st op = true)
    (hnodup : (akeys st).Nodup) (rid : String) :
    (∀ r', alookup (stepSt st op) rid = some r' →
      ∃ d, r'.messages = histOf st rid ++ d ∧
        (newMessagesTo (step st op).2 rid).Sublist d) ∧
    (alookup (stepSt st op) rid = none → newMessagesTo (step st op).2 rid = []) := by
  cases op with
  | create_room sid rid0 =>
    simp only [wfOp, Option.isNone_iff_eq_none] at hwf
    simp only [stepSt, step, handle_create_room]
    constructor
    · intro r' hr'
      by_cases hx : rid = rid0
      · subst hx
        rw [alookup_aset_self] at hr'
        cases hr'
        exact ⟨[], by simp [emptyRoom, histOf_none hwf], by simp [newMessagesTo]⟩
      · rw [alookup_aset_ne _ _ _ _ hx] at hr'
        exact ⟨[], by simp [hist_eq_of_lookup hr'], by simp [newMessagesTo]⟩
    · intro _; rfl
  | disconnect sid ts =>
    constructor
    · intro r' hr'
      rw [stepSt, step, handle_disconnect_state] at hr'
      obtain ⟨r0, d, hl0, he0⟩ := disconnect_fold_hist_extend sid ts _ st hnodup rid r' hr'
      exact ⟨d, by rw [he0, hist_eq_of_lookup hl0],
        by rw [show (step st (Op.disconnect sid ts)).2 = (handle_disconnect st sid ts).2
          from rfl, newMessagesTo_handle_disconnect]; exact List.nil_sublist d⟩
    · intro _
      rw [show (step st (Op.disconnect sid ts)).2 = (handle_disconnect st sid ts).2
        from rfl, newMessagesTo_handle_disconnect]
  | send_message sid rid0 m ts =>
    simp only [stepSt, step, handle_send_message]
    by_cases h1 : strTrim m = ""
    · rw [if_pos h1]
      constructor
      · intro r' hr'
        exact ⟨[], by simp [hist_eq_of_lookup hr'], by simp [newMessagesTo]⟩
      · intro _; rfl
    rw [if_neg h1]
    cases hl : alookup st (normRoomId rid0) <;> dsimp only
    · constructor
      · intro r' hr'
        exact ⟨[], by simp [hist_eq_of_lookup hr'], by simp [newMessagesTo]⟩
      · intro _; rfl
    · rename_i r
      cases hu : alookup r.users sid <;> dsimp only
      · constructor
        · intro r' hr'
          exact ⟨[], by simp [hist_eq_of_lookup hr'], by simp [newMessagesTo]⟩
        · intro _; rfl
      · rename_i username
        by_cases hx : rid = normRoomId rid0
        · subst hx
          constructor
          · intro r' hr'
            rw [alookup_updRoom_self, hl] at hr'
            dsimp only [Option.map_some'] at hr'
            cases hr'
            refine ⟨[{ username := username, message := strTrim m,
                       audio_data := "", duration := 0, timestamp := ts,
                       type := .text, sender_id := some sid }],
              by simp [hist_eq_of_lookup hl], ?_⟩
            simp [newMessagesTo]
          · intro hnone
            rw [alookup_updRoom_self, hl] at hnone
            simp at hnone
        · have hx' : ¬(normRoomId rid0 = rid) := fun he => hx he.symm
          constructor
          · intro r' hr'
            rw [alookup_updRoom_ne _ _ _ _ hx] at hr'
            exact ⟨[], by simp [hist_eq_of_lookup hr'], by simp [newMessagesTo, hx']⟩
          · intro _
            simp [newMessagesTo, hx']
  | send_voice_note sid rid0 ad dur ts =>
    simp only [stepSt, step, handle_send_voice_note]
    by_cases h1 : ad = ""
    · rw [if_pos h1]
      constructor
      · intro r' hr'
        exact ⟨[], by simp [hist_eq_of_lookup hr'], by simp [newMessagesTo]⟩
      · intro _; rfl
    rw [if_neg h1]
    cases hl : alookup st (normRoomId rid0) <;> dsimp only
    · constructor
      · intro r' hr'
        exact ⟨[], by simp [hist_eq_of_lookup hr'], by simp [newMessagesTo]⟩
      · intro _; rfl
    · rename_i r
      cases hu : alookup r.users sid <;> dsimp only
      · constructor
        · intro r' hr'
          exact ⟨[], by simp [hist_eq_of_lookup hr'], by simp [newMessagesTo]⟩
        · intro _; rfl
      · rename_i username
        by_cases h2 : ad.data.length > 5 * 1024 * 1024
        · rw [if_pos h2]
          constructor
          · intro r' hr'
            exact ⟨[], by simp [hist_eq_of_lookup hr'], by simp [newMessagesTo]⟩
          · intro _; rfl
        rw [if_neg h2]
        by_cases hx : rid = normRoomId rid0
        · subst hx
          constructor
          · intro r' hr'
            rw [alookup_updRoom_self, hl] at hr'
            dsimp only [Option.map_some'] at hr'
            cases hr'
            refine ⟨[{ username := username, message := "",
                       audio_data := ad, duration := dur, timestamp := ts,
                       type := .voice, sender_id := some sid }],
              by simp [hist_eq_of_lookup hl], ?_⟩
            simp [newMessagesTo]
          · intro hnone
            rw [alookup_updRoom_self, hl] at hnone
            simp at hnone
        · have hx' : ¬(normRoomId rid0 = rid) := fun he => hx he.symm
          constructor
          · intro r' hr'
            rw [alookup_updRoom_ne _ _ _ _ hx] at hr'
            exact ⟨[], by simp [hist_eq_of_lookup hr'], by simp [newMessagesTo, hx']⟩
          · intro _
            simp [newMessagesTo, hx']
  | join_room sid rid0 u ts =>
    simp only [stepSt, step, handle_join_room]
    by_cases h1 : normRoomId rid0 = ""
    · rw [if_pos h1]
      constructor
      · intro r' hr'
        exact ⟨[], by simp [hist_eq_of_lookup hr'], by simp [newMessagesTo]⟩
      · intro _; rfl
    rw [if_neg h1]
    by_cases h2 : strTrim u = ""
    · rw [if_pos h2]
      constructor
      · intro r' hr'
        exact ⟨[], by simp [hist_eq_of_lookup hr'], by simp [newMessagesTo]⟩
      · intro _; rfl
    rw [if_neg h2]
    cases hl : alookup st (normRoomId rid0) with
    | none =>
      simp only [hl, Option.isNone_none, ite_cond_true, if_true, alookup_aset_self,
        Option.getD_some]
      split
      · constructor
        · intro r' hr'
          by_cases hx : rid = normRoomId rid0
          · subst hx
            rw [alookup_aset_self] at hr'
            cases hr'
            exact ⟨[], by simp [emptyRoom, histOf_none hl], by simp [newMessagesTo]⟩
          · rw [alookup_aset_ne _ _ _ _ hx] at hr'
            exact ⟨[], by simp [hist_eq_of_lookup hr'], by simp [newMessagesTo]⟩
        · intro _; rfl
      · simp only [add_system_message, updRoom_updRoom]
        constructor
        · intro r' hr'
          by_cases hx : rid = normRoomId rid0
          · subst hx
            rw [alookup_updRoom_self, alookup_aset_self] at hr'
            dsimp only [Option.map_some'] at hr'
            cases hr'
            exact ⟨[mkSystemMessage (strTrim u ++ " has joined the room") ts],
              by simp [emptyRoom, histOf_none hl], by simp [newMessagesTo]⟩
          · rw [alookup_updRoom_ne _ _ _ _ hx, alookup_aset_ne _ _ _ _ hx] at hr'
            exact ⟨[], by simp [hist_eq_of_lookup hr'], by simp [newMessagesTo]⟩
        · intro _
          simp [newMessagesTo]
    | some r =>
      simp only [hl, Option.isNone_some, ite_cond_false, Option.getD_some]
      split
      · constructor
        · intro r' hr'
          exact ⟨[], by simp [hist_eq_of_lookup hr'], by simp [newMessagesTo]⟩
        · intro _; rfl
      · simp only [add_system_message, updRoom_updRoom]
        constructor
        · intro r' hr'
          by_cases hx : rid = normRoomId rid0
          · subst hx
            rw [alookup_updRoom_self, hl] at hr'
            dsimp only [Option.map_some'] at hr'
            cases hr'
            exact ⟨[mkSystemMessage (strTrim u ++ " has joined the room") ts],
              by simp [hist_eq_of_lookup hl], by simp [newMessagesTo]⟩
          · rw [alookup_updRoom_ne _ _ _ _ hx] at hr'
            exact ⟨[], by simp [hist_eq_of_lookup hr'], by simp [newMessagesTo]⟩
        · intro _
          simp [newMessagesTo]
  | start_video_call sid rid0 ts =>
    simp only [stepSt, step, handle_start_video_call]
    cases hl : alookup st (normRoomId rid0) <;> dsimp only
    · constructor
      · intro r' hr'
        exact ⟨[], by simp [hist_eq_of_lookup hr'], by simp [newMessagesTo]⟩
      · intro _; rfl
    · rename_i r
      cases hu : alookup r.users sid <;> dsimp only
      · constructor
        · intro r' hr'
          exact ⟨[], by simp [hist_eq_of_lookup hr'], by simp [newMessagesTo]⟩
        · intro _; rfl
      · rename_i username
        simp only [add_system_message, updRoom_updRoom]
        constructor
        · intro r' hr'
          by_cases hx : rid = normRoomId rid0
          · subst hx
            rw [alookup_updRoom_self, hl] at hr'
            dsimp only [Option.map_some'] at hr'
            cases hr'
            exact ⟨[mkSystemMessage (username ++ " started a video call") ts],
              by simp [hist_eq_of_lookup hl], by simp [newMessagesTo]⟩
          · rw [alookup_updRoom_ne _ _ _ _ hx] at hr'
            exact ⟨[], by simp [hist_eq_of_lookup hr'], by simp [newMessagesTo]⟩
        · intro _
          simp [newMessagesTo]
  | join_video_call sid rid0 ts =>
    simp only [stepSt, step, handle_join_video_call]
    cases hl : alookup st (normRoomId rid0) <;> dsimp only
    · constructor
      · intro r' hr'
        exact ⟨[], by simp [hist_eq_of_lookup hr'], by simp [newMessagesTo]⟩
      · intro _; rfl
    · rename_i r
      cases hu : alookup r.users sid <;> dsimp only
      · constructor
        · intro r' hr'
          exact ⟨[], by simp [hist_eq_of_lookup hr'], by simp [newMessagesTo]⟩
        · intro _; rfl
      · rename_i username
        simp only [add_system_message, updRoom_updRoom]
        by_cases hx : rid = normRoomId rid0
        · subst hx
          constructor
          · intro r' hr'
            rw [alookup_updRoom_self, hl] at hr'
            dsimp only [Option.map_some'] at hr'
            cases hr'
            refine ⟨[mkSystemMessage (username ++ " joined the video call") ts],
              by simp [hist_eq_of_lookup hl], ?_⟩
            simp [newMessagesTo]
          · intro hnone
            rw [alookup_updRoom_self, hl] at hnone
            simp at hnone
        · have hx' : ¬(normRoomId rid0 = rid) := fun he => hx he.symm
          constructor
          · intro r' hr'
            rw [alookup_updRoom_ne _ _ _ _ hx] at hr'
            exact ⟨[], by simp [hist_eq_of_lookup hr'], by simp [newMessagesTo, hx']⟩
          · intro _
            simp [newMessagesTo, hx']
  | leave_room sid rid0 ts =>
    simp only [stepSt, step, handle_leave_room]
    cases hl : alookup st (normRoomId rid0) <;> dsimp only
    · constructor
      · intro r' hr'
        exact ⟨[], by simp [hist_eq_of_lookup hr'], by simp [newMessagesTo]⟩
      · intro _; rfl
    · rename_i r
      cases hu : alookup r.users sid <;> dsimp only
      · constructor
        · intro r' hr'
          exact ⟨[], by simp [hist_eq_of_lookup hr'], by simp [newMessagesTo]⟩
        · intro _; rfl
      · rename_i username
        by_cases hin : sid ∈ r.video_call.participants
        · simp only [hin, ite_true, add_system_message, updRoom_updRoom]
          rw [updRoom_eq_aset hl]
          constructor
          · intro r' hr'
            split at hr'
            · by_cases hx : rid = normRoomId rid0
              · subst hx
                rw [alookup_adel_self_of_nodup
                  (by rw [akeys_aset_of_mem _ _ _ (by simp [hl])]; exact hnodup)] at hr'
                exact absurd hr' (by simp)
              · rw [alookup_adel_ne _ _ _ hx, alookup_aset_ne _ _ _ _ hx] at hr'
                exact ⟨[], by simp [hist_eq_of_lookup hr'], by simp [newMessagesTo]⟩
            · by_cases hx : rid = normRoomId rid0
              · subst hx
                rw [alookup_aset_self] at hr'
                cases hr'
                exact ⟨[mkSystemMessage (username ++ " has left the room") ts],
                  by simp [hist_eq_of_lookup hl], by simp [newMessagesTo]⟩
              · rw [alookup_aset_ne _ _ _ _ hx] at hr'
                exact ⟨[], by simp [hist_eq_of_lookup hr'], by simp [newMessagesTo]⟩
          · intro _
            simp [newMessagesTo]
        · simp only [hin, ite_false, add_system_message, updRoom_updRoom]
          rw [updRoom_eq_aset hl]
          constructor
          · intro r' hr'
            split at hr'
            · by_cases hx : rid = normRoomId rid0
              · subst hx
                rw [alookup_adel_self_of_nodup
                  (by rw [akeys_aset_of_mem _ _ _ (by simp [hl])]; exact hnodup)] at hr'
                exact absurd hr' (by simp)
              · rw [alookup_adel_ne _ _ _ hx, alookup_aset_ne _ _ _ _ hx] at hr'
                exact ⟨[], by simp [hist_eq_of_lookup hr'], by simp [newMessagesTo]⟩
            · by_cases hx : rid = normRoomId rid0
              · subst hx
                rw [alookup_aset_self] at hr'
                cases hr'
                exact ⟨[mkSystemMessage (username ++ " has left the room") ts],
                  by simp [hist_eq_of_lookup hl], by simp [newMessagesTo]⟩
              · rw [alookup_aset_ne _ _ _ _ hx] at hr'
                exact ⟨[], by simp [hist_eq_of_lookup hr'], by simp [newMessagesTo]⟩
          · intro _
            simp [newMessagesTo]
  | leave_video_call sid rid0 ts =>
    simp only [stepSt, step, handle_leave_video_call]
    cases hl : alookup st (normRoomId rid0) <;> dsimp only
    · constructor
      · intro r' hr'
        exact ⟨[], by simp [hist_eq_of_lookup hr'], by simp [newMessagesTo]⟩
      · intro _; rfl
    · rename_i r
      cases hu : alookup r.users sid <;> dsimp only
      · constructor
        · intro r' hr'
          exact ⟨[], by simp [hist_eq_of_lookup hr'], by simp [newMessagesTo]⟩
        · intro _; rfl
      · rename_i username
        simp only [add_system_message]
        split
        · simp only [updRoom_updRoom]
          by_cases hx : rid = normRoomId rid0
          · subst hx
            constructor
            · intro r' hr'
              rw [alookup_updRoom_self, hl] at hr'
              dsimp only [Option.map_some'] at hr'
              cases hr'
              refine ⟨[mkSystemMessage "Video call ended" ts,
                mkSystemMessage (username ++ " left the video call") ts],
                by simp [hist_eq_of_lookup hl], ?_⟩
              simp only [newMessagesTo, List.filterMap]
              simp [newMessagesTo]
            · intro hnone
              rw [alookup_updRoom_self, hl] at hnone
              simp at hnone
          · have hx' : ¬(normRoomId rid0 = rid) := fun he => hx he.symm
            constructor
            · intro r' hr'
              rw [alookup_updRoom_ne _ _ _ _ hx] at hr'
              exact ⟨[], by simp [hist_eq_of_lookup hr'], by simp [newMessagesTo, hx']⟩
            · intro _
              simp [newMessagesTo, hx']
        · simp only [updRoom_updRoom]
          by_cases hx : rid = normRoomId rid0
          · subst hx
            constructor
            · intro r' hr'
              rw [alookup_updRoom_self, hl] at hr'
              dsimp only [Option.map_some'] at hr'
              cases hr'
              refine ⟨[mkSystemMessage (username ++ " left the video call") ts],
                by simp [hist_eq_of_lookup hl], ?_⟩
              simp [newMessagesTo]
            · intro hnone
              rw [alookup_updRoom_self, hl] at hnone
              simp at hnone
          · have hx' : ¬(normRoomId rid0 = rid) := fun he => hx he.symm
            constructor
            · intro r' hr'
              rw [alookup_updRoom_ne _ _ _ _ hx] at hr'
              exact ⟨[], by simp [hist_eq_of_lookup hr'], by simp [newMessagesTo, hx']⟩
            · intro _
              simp [newMessagesTo, hx']

/-- C2 witness: a `send_message` on the concrete one-room store. -/
theorem C2_witness :
    wfOp soloStore (Op.send_message 1 "R" "hi" "09:00") = true ∧
    (akeys soloStore).Nodup ∧
    (∀ r', alookup (stepSt soloStore (Op.send_message 1 "R" "hi" "09:00")) "R" = some r' →
      ∃ d, r'.messages = histOf soloStore "R" ++ d ∧
        (newMessagesTo (step soloStore (Op.send_message 1 "R" "hi" "09:00")).2 "R").Sublist d) :=
  ⟨by decide, by decide,
   (C2_amended soloStore (Op.send_message 1 "R" "hi" "09:00") (by decide) (by decide) "R").1⟩

end ChatApp
